import Mathlib

/-!
Verification of the static instruction-cost estimator (`V3InstrCount.cpp`).

The estimator (`InstrCountVisitor`) walks an AST, accumulating a `uint32`
running count `m_instrCount`.  Each node kind is handled by a `visit`
overload; the common bookkeeping is done by `startVisitBase` / `endVisitBase`
(wrapped in the RAII class `VisitBase` in the C++).  Fatal `UASSERT_OBJ`
invariant violations are modelled by `Except` errors.  The per-node side
slots `user1` (claim markers, for duplicate detection) and `user2`
(display stamps, for the diagnostic dump) are modelled as association
lists keyed by node identity (`nid`, standing in for the C++ pointer).
`uint32` arithmetic is modelled on `Nat` with explicit reduction mod 2^32.
-/

/-- 2^32, the modulus of `uint32` arithmetic. -/
def W32 : Nat := 4294967296

/-- Reduce a natural to `uint32` range. -/
def w32 (n : Nat) : Nat := n % W32

/-- `uint32` addition. -/
def add32 (a b : Nat) : Nat := (a + b) % W32

/-- Branch-likelihood hint carried by an `AstNodeIf` (`VBranchPred`). -/
inductive BranchPred where
  | bpNone
  | bpLikely
  | bpUnlikely
deriving DecidableEq, Repr

/-- The AST node kinds distinguished by `InstrCountVisitor`.  Every node
carries its identity `nid` (modelling the C++ node pointer) and its
intrinsic cost `ic` (modelling `nodep->instrCount()` from the external
cost table).  Child slots that the C++ iterates with
`iterateAndNextConstNull` are `List Ast` (a head node and its `nextp`
chain); a `ccall`'s `funcp` is the resolved callee body. -/
inductive Ast where
  | node (nid ic : Nat) (childrenp : List Ast)
  | nodeSel (nid ic : Nat) (fromp : Ast) (bitp : List Ast)
  | sel (nid ic : Nat) (fromp : Ast) (lsbp : List Ast)
  | concat (nid ic : Nat) (lhsp rhsp : Ast)
  | nodeIf (nid ic : Nat) (condp thensp elsesp : List Ast) (pred : BranchPred)
  | cond (nid ic : Nat) (condp thenp elsep : List Ast)
  | cawait (nid ic : Nat) (exprsp : List Ast)
  | fork (nid ic : Nat) (stmtsp : List Ast)
  | ccall (nid ic : Nat) (argsp : List Ast) (funcp : Ast)
  | cfunc (nid ic : Nat) (stmtsp : List Ast)
  | active (nid ic : Nat) (stmtsp : List Ast)

/-- Node identity (models the C++ node pointer). -/
def Ast.nid : Ast → Nat
  | .node n _ _ => n
  | .nodeSel n _ _ _ => n
  | .sel n _ _ _ => n
  | .concat n _ _ _ => n
  | .nodeIf n _ _ _ _ _ => n
  | .cond n _ _ _ _ => n
  | .cawait n _ _ => n
  | .fork n _ _ => n
  | .ccall n _ _ _ => n
  | .cfunc n _ _ => n
  | .active n _ _ => n

/-- The mutable state of `InstrCountVisitor`, plus the `user1`/`user2`
side slots of the tree (which in the C++ live on the nodes). -/
structure St where
  instrCount : Nat
  ignoreRemaining : Bool
  tracingCall : Bool
  inCFunc : Bool
  user1 : List (Nat × Nat)
  user2 : List (Nat × Nat)
deriving DecidableEq, Repr

/-- The per-query configuration: the `assertNoDups` flag, whether a dump
stream `osp` was supplied, and the identity of the query's start node
(`m_startNodep`). -/
structure Cfg where
  assertNoDups : Bool
  osp : Bool
  startId : Nat
deriving DecidableEq, Repr

/-- The fatal `UASSERT_OBJ` invariant violations of the estimator. -/
inductive VErr where
  | ignoreAtVisit (nid : Nat)
  | dupClaim (nid : Nat) (prev : Nat)
  | multipleActives (nid : Nat)
  | tracingNotCleared (nid : Nat)
  | cfuncNotUnderCall (nid : Nat)
  | ignoreAtCFunc (nid : Nat)
deriving DecidableEq, Repr

/-- `markCost`: when dumping, stamp the node's `user2` slot with
`m_instrCount + 1`; else don't mark, to avoid writeback. -/
def markCost (cfg : Cfg) (nid : Nat) (st : St) : St :=
  if cfg.osp then { st with user2 := (nid, add32 st.instrCount 1) :: st.user2 } else st

/-- `startVisitBase`: assert we are not ignoring; under `assertNoDups`
outside a CFunc, assert the node carries no claim marker and claim it
with the start node's identity; save the running count and restart it
at the node's intrinsic cost. -/
def startVisitBase (cfg : Cfg) (nid ic : Nat) (st : St) : Except VErr (Nat × St) :=
  if st.ignoreRemaining then .error (.ignoreAtVisit nid)
  else if cfg.assertNoDups && !st.inCFunc then
    match List.lookup nid st.user1 with
    | some prev => .error (.dupClaim nid prev)
    | none =>
      let st1 := { st with user1 := (nid, cfg.startId) :: st.user1 }
      .ok (st1.instrCount, { st1 with instrCount := w32 ic })
  else .ok (st.instrCount, { st with instrCount := w32 ic })

/-- `endVisitBase`: stamp the node's local cost, then add the saved
count back in — unless we are now ignoring the rest of the block. -/
def endVisitBase (cfg : Cfg) (saved nid : Nat) (st : St) : St :=
  let st1 := markCost cfg nid st
  if st1.ignoreRemaining then st1 else { st1 with instrCount := add32 st1.instrCount saved }

/-- `reset()`: zero the running count and clear the ignore flag. -/
def resetSt (st : St) : St :=
  { st with instrCount := 0, ignoreRemaining := false }

/-- The unconditional `user2(0)` write zeroing the head of the
non-chosen branch of an if/ternary (`Don't dump it`). -/
def zeroHead (l : List Ast) (u2 : List (Nat × Nat)) : List (Nat × Nat) :=
  match l with
  | [] => u2
  | a :: _ => (a.nid, 0) :: u2

mutual

/-- One `visit` dispatch of `InstrCountVisitor` (translated case by case
from the C++ overloads; the catch-all `visit(AstNode*)` is `.node`). -/
def visitA (cfg : Cfg) (a : Ast) (st : St) : Except VErr St :=
  match a with
  | .node nid ic childrenp =>
    if st.ignoreRemaining then .ok st
    else do
      let (saved, st1) ← startVisitBase cfg nid ic st
      let st2 ← visitL cfg childrenp st1
      .ok (endVisitBase cfg saved nid st2)
  | .nodeSel nid ic _fromp bitp =>
    if st.ignoreRemaining then .ok st
    else do
      let (saved, st1) ← startVisitBase cfg nid ic st
      let st2 ← visitL cfg bitp st1
      .ok (endVisitBase cfg saved nid st2)
  | .sel nid ic _fromp lsbp =>
    if st.ignoreRemaining then .ok st
    else do
      let (saved, st1) ← startVisitBase cfg nid ic st
      let st2 ← visitL cfg lsbp st1
      .ok (endVisitBase cfg saved nid st2)
  | .concat nid _ic lhsp rhsp =>
    if st.ignoreRemaining then .ok st
    else do
      let st1 ← visitA cfg lhsp st
      let st2 ← visitA cfg rhsp st1
      .ok (markCost cfg nid st2)
  | .nodeIf nid ic condp thensp elsesp pred =>
    if st.ignoreRemaining then .ok st
    else do
      let (saved, st1) ← startVisitBase cfg nid ic st
      let st2 ← visitL cfg condp st1
      let savedCount := st2.instrCount
      let st3 ← visitL cfg thensp (resetSt st2)
      let ifCount := if pred = .bpUnlikely then 0 else st3.instrCount
      let st4 ← visitL cfg elsesp (resetSt st3)
      let elseCount := if pred = .bpLikely then 0 else st4.instrCount
      let st5 := resetSt st4
      let st6 :=
        if elseCount ≤ ifCount then
          { st5 with instrCount := add32 savedCount ifCount, user2 := zeroHead elsesp st5.user2 }
        else
          { st5 with instrCount := add32 savedCount elseCount, user2 := zeroHead thensp st5.user2 }
      .ok (endVisitBase cfg saved nid st6)
  | .cond nid ic condp thenp elsep =>
    if st.ignoreRemaining then .ok st
    else do
      let (saved, st1) ← startVisitBase cfg nid ic st
      let st2 ← visitL cfg condp st1
      let savedCount := st2.instrCount
      let st3 ← visitL cfg thenp (resetSt st2)
      let ifCount := st3.instrCount
      let st4 ← visitL cfg elsep (resetSt st3)
      let elseCount := st4.instrCount
      let st5 := resetSt st4
      let st6 :=
        if elseCount ≤ ifCount then
          { st5 with instrCount := add32 savedCount ifCount, user2 := zeroHead elsep st5.user2 }
        else
          { st5 with instrCount := add32 savedCount elseCount, user2 := zeroHead thenp st5.user2 }
      .ok (endVisitBase cfg saved nid st6)
  | .cawait _nid _ic exprsp =>
    if st.ignoreRemaining then .ok st
    else do
      let st1 ← visitL cfg exprsp st
      .ok { st1 with ignoreRemaining := true }
  | .fork nid ic stmtsp =>
    if st.ignoreRemaining then .ok st
    else do
      let (saved, st1) ← startVisitBase cfg nid ic st
      let (total, st2) ← forkStmts cfg stmtsp st1.instrCount st1
      let st3 := { st2 with instrCount := total, ignoreRemaining := false }
      .ok (endVisitBase cfg saved nid st3)
  | .ccall nid ic argsp funcp =>
    if st.ignoreRemaining then .ok st
    else do
      let (saved, st1) ← startVisitBase cfg nid ic st
      let st2 ← visitL cfg argsp st1
      let st3 ← visitA cfg funcp { st2 with tracingCall := true }
      if st3.tracingCall then .error (.tracingNotCleared nid)
      else .ok (endVisitBase cfg saved nid st3)
  | .cfunc nid ic stmtsp =>
    if !(st.tracingCall || nid == cfg.startId) then .error (.cfuncNotUnderCall nid)
    else if st.ignoreRemaining then .error (.ignoreAtCFunc nid)
    else do
      let st1 := { st with tracingCall := false, inCFunc := true }
      let (saved, st2) ← startVisitBase cfg nid ic st1
      let st3 ← visitL cfg stmtsp st2
      let st4 := endVisitBase cfg saved nid st3
      .ok { st4 with ignoreRemaining := false, inCFunc := st.inCFunc }
  | .active nid _ic _stmtsp =>
    let st1 := markCost cfg nid st
    if nid == cfg.startId then .ok st1 else .error (.multipleActives nid)

/-- `iterateAndNextConstNull` / `iterateChildrenConst`: visit a node and
its `nextp` chain in order. -/
def visitL (cfg : Cfg) (l : List Ast) (st : St) : Except VErr St :=
  match l with
  | [] => .ok st
  | a :: rest => do
    let st1 ← visitA cfg a st
    visitL cfg rest st1

/-- The per-branch loop of `visit(AstFork*)`: reset, visit one branch
statement, and add its count into the running fork total. -/
def forkStmts (cfg : Cfg) (l : List Ast) (total : Nat) (st : St) : Except VErr (Nat × St) :=
  match l with
  | [] => .ok (total, st)
  | s :: rest => do
    let st1 ← visitA cfg s (resetSt st)
    forkStmts cfg rest (add32 total st1.instrCount) st1

end

/-- The initial visitor state for one query: zero count, clear flags,
the caller-persistent `user1` claim markers, and a fresh `user2` slot
(the `VNUser2InUse` declaration clears `user2` per query). -/
def initSt (u1 : List (Nat × Nat)) : St :=
  { instrCount := 0, ignoreRemaining := false, tracingCall := false, inCFunc := false,
    user1 := u1, user2 := [] }

/-- Run one estimation query, returning the full final state. -/
def countRes (a : Ast) (assertNoDups osp : Bool) (u1 : List (Nat × Nat)) : Except VErr St :=
  visitA { assertNoDups := assertNoDups, osp := osp, startId := a.nid } a (initSt u1)

/-- `V3InstrCount::count`: the scalar result of one estimation query. -/
def count (a : Ast) (assertNoDups osp : Bool) (u1 : List (Nat × Nat)) : Except VErr Nat :=
  (countRes a assertNoDups osp u1).map (·.instrCount)

/-- A plain estimation query: duplicate checking off, no dump stream,
no pre-existing claim markers. -/
def estimate (a : Ast) : Except VErr Nat := count a false false []

mutual

/-- All node identities occurring in a subtree (the callee body of a
`ccall` included, since the estimator traces into it). -/
def astIds : Ast → List Nat
  | .node n _ ch => n :: astIdsL ch
  | .nodeSel n _ f b => n :: (astIds f ++ astIdsL b)
  | .sel n _ f l => n :: (astIds f ++ astIdsL l)
  | .concat n _ l r => n :: (astIds l ++ astIds r)
  | .nodeIf n _ c t e _ => n :: (astIdsL c ++ astIdsL t ++ astIdsL e)
  | .cond n _ c t e => n :: (astIdsL c ++ astIdsL t ++ astIdsL e)
  | .cawait n _ ex => n :: astIdsL ex
  | .fork n _ s => n :: astIdsL s
  | .ccall n _ args f => n :: (astIdsL args ++ astIds f)
  | .cfunc n _ s => n :: astIdsL s
  | .active n _ s => n :: astIdsL s

/-- Node identities of a node chain. -/
def astIdsL : List Ast → List Nat
  | [] => []
  | a :: r => astIds a ++ astIdsL r

end

mutual

/-- Fuel-bounded mirror of `visitA`: `none` exactly when the recursion
depth exceeds the fuel. -/
def visitAF (fuel : Nat) (cfg : Cfg) (a : Ast) (st : St) : Option (Except VErr St) :=
  match fuel with
  | 0 => none
  | f + 1 =>
    match a with
    | .node nid ic childrenp =>
      if st.ignoreRemaining then some (.ok st)
      else
        match startVisitBase cfg nid ic st with
        | .error e => some (.error e)
        | .ok (saved, st1) =>
          match visitLF f cfg childrenp st1 with
          | none => none
          | some (.error e) => some (.error e)
          | some (.ok st2) => some (.ok (endVisitBase cfg saved nid st2))
    | .nodeSel nid ic _fromp bitp =>
      if st.ignoreRemaining then some (.ok st)
      else
        match startVisitBase cfg nid ic st with
        | .error e => some (.error e)
        | .ok (saved, st1) =>
          match visitLF f cfg bitp st1 with
          | none => none
          | some (.error e) => some (.error e)
          | some (.ok st2) => some (.ok (endVisitBase cfg saved nid st2))
    | .sel nid ic _fromp lsbp =>
      if st.ignoreRemaining then some (.ok st)
      else
        match startVisitBase cfg nid ic st with
        | .error e => some (.error e)
        | .ok (saved, st1) =>
          match visitLF f cfg lsbp st1 with
          | none => none
          | some (.error e) => some (.error e)
          | some (.ok st2) => some (.ok (endVisitBase cfg saved nid st2))
    | .concat nid _ic lhsp rhsp =>
      if st.ignoreRemaining then some (.ok st)
      else
        match visitAF f cfg lhsp st with
        | none => none
        | some (.error e) => some (.error e)
        | some (.ok st1) =>
          match visitAF f cfg rhsp st1 with
          | none => none
          | some (.error e) => some (.error e)
          | some (.ok st2) => some (.ok (markCost cfg nid st2))
    | .nodeIf nid ic condp thensp elsesp pred =>
      if st.ignoreRemaining then some (.ok st)
      else
        match startVisitBase cfg nid ic st with
        | .error e => some (.error e)
        | .ok (saved, st1) =>
          match visitLF f cfg condp st1 with
          | none => none
          | some (.error e) => some (.error e)
          | some (.ok st2) =>
            match visitLF f cfg thensp (resetSt st2) with
            | none => none
            | some (.error e) => some (.error e)
            | some (.ok st3) =>
              match visitLF f cfg elsesp (resetSt st3) with
              | none => none
              | some (.error e) => some (.error e)
              | some (.ok st4) =>
                let savedCount := st2.instrCount
                let ifCount := if pred = .bpUnlikely then 0 else st3.instrCount
                let elseCount := if pred = .bpLikely then 0 else st4.instrCount
                let st5 := resetSt st4
                let st6 :=
                  if elseCount ≤ ifCount then
                    { st5 with instrCount := add32 savedCount ifCount,
                               user2 := zeroHead elsesp st5.user2 }
                  else
                    { st5 with instrCount := add32 savedCount elseCount,
                               user2 := zeroHead thensp st5.user2 }
                some (.ok (endVisitBase cfg saved nid st6))
    | .cond nid ic condp thenp elsep =>
      if st.ignoreRemaining then some (.ok st)
      else
        match startVisitBase cfg nid ic st with
        | .error e => some (.error e)
        | .ok (saved, st1) =>
          match visitLF f cfg condp st1 with
          | none => none
          | some (.error e) => some (.error e)
          | some (.ok st2) =>
            match visitLF f cfg thenp (resetSt st2) with
            | none => none
            | some (.error e) => some (.error e)
            | some (.ok st3) =>
              match visitLF f cfg elsep (resetSt st3) with
              | none => none
              | some (.error e) => some (.error e)
              | some (.ok st4) =>
                let savedCount := st2.instrCount
                let ifCount := st3.instrCount
                let elseCount := st4.instrCount
                let st5 := resetSt st4
                let st6 :=
                  if elseCount ≤ ifCount then
                    { st5 with instrCount := add32 savedCount ifCount,
                               user2 := zeroHead elsep st5.user2 }
                  else
                    { st5 with instrCount := add32 savedCount elseCount,
                               user2 := zeroHead thenp st5.user2 }
                some (.ok (endVisitBase cfg saved nid st6))
    | .cawait _nid _ic exprsp =>
      if st.ignoreRemaining then some (.ok st)
      else
        match visitLF f cfg exprsp st with
        | none => none
        | some (.error e) => some (.error e)
        | some (.ok st1) => some (.ok { st1 with ignoreRemaining := true })
    | .fork nid ic stmtsp =>
      if st.ignoreRemaining then some (.ok st)
      else
        match startVisitBase cfg nid ic st with
        | .error e => some (.error e)
        | .ok (saved, st1) =>
          match forkStmtsF f cfg stmtsp st1.instrCount st1 with
          | none => none
          | some (.error e) => some (.error e)
          | some (.ok (total, st2)) =>
            let st3 := { st2 with instrCount := total, ignoreRemaining := false }
            some (.ok (endVisitBase cfg saved nid st3))
    | .ccall nid ic argsp funcp =>
      if st.ignoreRemaining then some (.ok st)
      else
        match startVisitBase cfg nid ic st with
        | .error e => some (.error e)
        | .ok (saved, st1) =>
          match visitLF f cfg argsp st1 with
          | none => none
          | some (.error e) => some (.error e)
          | some (.ok st2) =>
            match visitAF f cfg funcp { st2 with tracingCall := true } with
            | none => none
            | some (.error e) => some (.error e)
            | some (.ok st3) =>
              if st3.tracingCall then some (.error (.tracingNotCleared nid))
              else some (.ok (endVisitBase cfg saved nid st3))
    | .cfunc nid ic stmtsp =>
      if !(st.tracingCall || nid == cfg.startId) then some (.error (.cfuncNotUnderCall nid))
      else if st.ignoreRemaining then some (.error (.ignoreAtCFunc nid))
      else
        let st1 := { st with tracingCall := false, inCFunc := true }
        match startVisitBase cfg nid ic st1 with
        | .error e => some (.error e)
        | .ok (saved, st2) =>
          match visitLF f cfg stmtsp st2 with
          | none => none
          | some (.error e) => some (.error e)
          | some (.ok st3) =>
            let st4 := endVisitBase cfg saved nid st3
            some (.ok { st4 with ignoreRemaining := false, inCFunc := st.inCFunc })
    | .active nid _ic _stmtsp =>
      let st1 := markCost cfg nid st
      if nid == cfg.startId then some (.ok st1) else some (.error (.multipleActives nid))

/-- Fuel-bounded mirror of `visitL`. -/
def visitLF (fuel : Nat) (cfg : Cfg) (l : List Ast) (st : St) : Option (Except VErr St) :=
  match l with
  | [] => some (.ok st)
  | a :: rest =>
    match visitAF fuel cfg a st with
    | none => none
    | some (.error e) => some (.error e)
    | some (.ok st1) => visitLF fuel cfg rest st1

/-- Fuel-bounded mirror of `forkStmts`. -/
def forkStmtsF (fuel : Nat) (cfg : Cfg) (l : List Ast) (total : Nat) (st : St) :
    Option (Except VErr (Nat × St)) :=
  match l with
  | [] => some (.ok (total, st))
  | s :: rest =>
    match visitAF fuel cfg s (resetSt st) with
    | none => none
    | some (.error e) => some (.error e)
    | some (.ok st1) => forkStmtsF fuel cfg rest (add32 total st1.instrCount) st1

end

/-- Kind name of a node, for the dump's short node description. -/
def kindName : Ast → String
  | .node _ _ _ => "NODE"
  | .nodeSel _ _ _ _ => "NODESEL"
  | .sel _ _ _ _ => "SEL"
  | .concat _ _ _ _ => "CONCAT"
  | .nodeIf _ _ _ _ _ _ => "IF"
  | .cond _ _ _ _ _ => "COND"
  | .cawait _ _ _ => "CAWAIT"
  | .fork _ _ _ => "FORK"
  | .ccall _ _ _ _ => "CCALL"
  | .cfunc _ _ _ => "CFUNC"
  | .active _ _ _ => "ACTIVE"

/-- The short node description printed at the end of a dump line
(models `operator<<(ostream, AstNode*)`). -/
def describe (a : Ast) : String := kindName a ++ " " ++ Nat.repr a.nid

/-- `std::setw(6) << std::left`: left-justify in a six-column field. -/
def setwLeft6 (s : String) : String := s ++ String.mk (List.replicate (6 - s.length) ' ')

/-- `indent()`: one colon per depth level, then a space. -/
def indentStr (depth : Nat) : String := String.mk (List.replicate depth ':') ++ " "

/-- One line of `InstrCountDumpVisitor` output. -/
def dumpLine (depth cost : Nat) (a : Ast) : String :=
  "  " ++ indentStr depth ++ "cost " ++ setwLeft6 (Nat.repr cost) ++ "  " ++ describe a

/-- The `user2` display stamp of a node (0 when never stamped). -/
def stampOf (u2 : List (Nat × Nat)) (a : Ast) : Nat := (List.lookup a.nid u2).getD 0

mutual

/-- `InstrCountDumpVisitor::visit`: bump the depth; if the node is
stamped, print its line and recurse into its children (in
`iterateChildrenConst` operand order); else print nothing and prune. -/
def dumpA (u2 : List (Nat × Nat)) (depth : Nat) (a : Ast) : List String :=
  if stampOf u2 a = 0 then []
  else
    dumpLine (depth + 1) (stampOf u2 a - 1) a ::
      match a with
      | .node _ _ ch => dumpL u2 (depth + 1) ch
      | .nodeSel _ _ f b => dumpA u2 (depth + 1) f ++ dumpL u2 (depth + 1) b
      | .sel _ _ f l => dumpA u2 (depth + 1) f ++ dumpL u2 (depth + 1) l
      | .concat _ _ l r => dumpA u2 (depth + 1) l ++ dumpA u2 (depth + 1) r
      | .nodeIf _ _ c1 t e _ =>
        dumpL u2 (depth + 1) c1 ++ dumpL u2 (depth + 1) t ++ dumpL u2 (depth + 1) e
      | .cond _ _ c1 t e =>
        dumpL u2 (depth + 1) c1 ++ dumpL u2 (depth + 1) t ++ dumpL u2 (depth + 1) e
      | .cawait _ _ ex => dumpL u2 (depth + 1) ex
      | .fork _ _ s => dumpL u2 (depth + 1) s
      | .ccall _ _ args _ => dumpL u2 (depth + 1) args
      | .cfunc _ _ s => dumpL u2 (depth + 1) s
      | .active _ _ s => dumpL u2 (depth + 1) s

/-- Dump a node chain in order. -/
def dumpL (u2 : List (Nat × Nat)) (depth : Nat) (l : List Ast) : List String :=
  match l with
  | [] => []
  | a :: rest => dumpA u2 depth a ++ dumpL u2 depth rest

end

mutual

/-- Modelled from the spec (§4.2): the pre-order list of stamped nodes
with their printing depths; an unstamped node prunes its entire
subtree.  This is the specification-side description of what the
diagnostic printer emits, to be compared with `dumpA`. -/
def preStamped (u2 : List (Nat × Nat)) (depth : Nat) (a : Ast) : List (Nat × Ast) :=
  if stampOf u2 a = 0 then []
  else
    (depth + 1, a) ::
      match a with
      | .node _ _ ch => preStampedL u2 (depth + 1) ch
      | .nodeSel _ _ f b => preStamped u2 (depth + 1) f ++ preStampedL u2 (depth + 1) b
      | .sel _ _ f l => preStamped u2 (depth + 1) f ++ preStampedL u2 (depth + 1) l
      | .concat _ _ l r => preStamped u2 (depth + 1) l ++ preStamped u2 (depth + 1) r
      | .nodeIf _ _ c1 t e _ =>
        preStampedL u2 (depth + 1) c1 ++ preStampedL u2 (depth + 1) t ++
          preStampedL u2 (depth + 1) e
      | .cond _ _ c1 t e =>
        preStampedL u2 (depth + 1) c1 ++ preStampedL u2 (depth + 1) t ++
          preStampedL u2 (depth + 1) e
      | .cawait _ _ ex => preStampedL u2 (depth + 1) ex
      | .fork _ _ s => preStampedL u2 (depth + 1) s
      | .ccall _ _ args _ => preStampedL u2 (depth + 1) args
      | .cfunc _ _ s => preStampedL u2 (depth + 1) s
      | .active _ _ s => preStampedL u2 (depth + 1) s

/-- Modelled from the spec: pre-order stamped nodes of a chain. -/
def preStampedL (u2 : List (Nat × Nat)) (depth : Nat) (l : List Ast) : List (Nat × Ast) :=
  match l with
  | [] => []
  | a :: rest => preStamped u2 depth a ++ preStampedL u2 depth rest

end

/-- Modelled from the spec (§4.2): one output line — indentation of one
colon per depth level, the literal token `cost`, the value `stamp - 1`
left-justified in a fixed-width numeric field, then a short node
description. -/
def specLine (u2 : List (Nat × Nat)) (p : Nat × Ast) : String :=
  "  " ++ String.mk (List.replicate p.1 ':') ++ " " ++ "cost " ++
    setwLeft6 (Nat.repr (stampOf u2 p.2 - 1)) ++ "  " ++ describe p.2

/-- Modelled from the spec (§4.2): one line per stamped node, in
pre-order, pruned below unstamped nodes. -/
def specDump (u2 : List (Nat × Nat)) (a : Ast) : List String :=
  (preStamped u2 0 a).map (specLine u2)

/-- States equal on everything the estimator ever reads — all fields
except the write-only `user2` stamp slot. -/
def EqU2 (s t : St) : Prop :=
  s.instrCount = t.instrCount ∧ s.ignoreRemaining = t.ignoreRemaining ∧
    s.tracingCall = t.tracingCall ∧ s.inCFunc = t.inCFunc ∧ s.user1 = t.user1

/-- Lift a state relation to estimator outcomes: both fail with the
same invariant violation, or both succeed with related states. -/
def RelE (R : St → St → Prop) : Except VErr St → Except VErr St → Prop
  | .error e, .error f => e = f
  | .ok s, .ok t => R s t
  | _, _ => False

/-- Same, for the fork helper's `(total, state)` outcomes. -/
def RelP (R : St → St → Prop) : Except VErr (Nat × St) → Except VErr (Nat × St) → Prop
  | .error e, .error f => e = f
  | .ok (n, s), .ok (m, t) => n = m ∧ R s t
  | _, _ => False

/-- Input/output invariant of one successful visit: `inCFunc` is
restored, a clear `tracingCall` stays clear, with duplicate checking
off `user1` is untouched, and in general `user1` only grows by claims
on nodes of the visited subtree. -/
def InvOk (d : Bool) (ids : List Nat) (s t : St) : Prop :=
  t.inCFunc = s.inCFunc ∧ (s.tracingCall = false → t.tracingCall = false) ∧
    (d = false → t.user1 = s.user1) ∧
    ∃ w, t.user1 = w ++ s.user1 ∧ ∀ p ∈ w, p.1 ∈ ids

/-- The second run's state is the first run's state with an extra,
untouched tail `u` appended to the claim-marker table. -/
def AppU1 (u : List (Nat × Nat)) (s t : St) : Prop :=
  t = { s with user1 := s.user1 ++ u }

/-- Nodes whose `visit` handler returns immediately (without touching
any state) when the visitor is in the ignore-remaining mode: all kinds
except `cfunc` and `active`, whose handlers run assertions first. -/
def skipsIgnored : Ast → Bool
  | .cfunc _ _ _ => false
  | .active _ _ _ => false
  | _ => true

/-- Node kinds whose handler goes through `startVisitBase` (the RAII
`VisitBase`) and therefore participates in duplicate checking: all
kinds except `concat`, `cawait`, `cfunc` and `active`. -/
def claimsAtVisit : Ast → Bool
  | .node _ _ _ => true
  | .nodeSel _ _ _ _ => true
  | .sel _ _ _ _ => true
  | .nodeIf _ _ _ _ _ _ => true
  | .cond _ _ _ _ _ => true
  | .fork _ _ _ => true
  | .ccall _ _ _ _ => true
  | _ => false

theorem markCost_user1 (cfg : Cfg) (nid : Nat) (st : St) :
    (markCost cfg nid st).user1 = st.user1 := by
  simp only [markCost]; split <;> rfl

theorem markCost_tracingCall (cfg : Cfg) (nid : Nat) (st : St) :
    (markCost cfg nid st).tracingCall = st.tracingCall := by
  simp only [markCost]; split <;> rfl

theorem markCost_inCFunc (cfg : Cfg) (nid : Nat) (st : St) :
    (markCost cfg nid st).inCFunc = st.inCFunc := by
  simp only [markCost]; split <;> rfl

theorem markCost_instrCount (cfg : Cfg) (nid : Nat) (st : St) :
    (markCost cfg nid st).instrCount = st.instrCount := by
  simp only [markCost]; split <;> rfl

theorem markCost_ignoreRemaining (cfg : Cfg) (nid : Nat) (st : St) :
    (markCost cfg nid st).ignoreRemaining = st.ignoreRemaining := by
  simp only [markCost]; split <;> rfl

theorem endVisitBase_user1 (cfg : Cfg) (saved nid : Nat) (st : St) :
    (endVisitBase cfg saved nid st).user1 = st.user1 := by
  simp only [endVisitBase]; split <;> simp [markCost_user1]

theorem endVisitBase_tracingCall (cfg : Cfg) (saved nid : Nat) (st : St) :
    (endVisitBase cfg saved nid st).tracingCall = st.tracingCall := by
  simp only [endVisitBase]; split <;> simp [markCost_tracingCall]

theorem endVisitBase_inCFunc (cfg : Cfg) (saved nid : Nat) (st : St) :
    (endVisitBase cfg saved nid st).inCFunc = st.inCFunc := by
  simp only [endVisitBase]; split <;> simp [markCost_inCFunc]

theorem endVisitBase_ignoreRemaining (cfg : Cfg) (saved nid : Nat) (st : St) :
    (endVisitBase cfg saved nid st).ignoreRemaining = st.ignoreRemaining := by
  simp only [endVisitBase]; split <;> simp [markCost_ignoreRemaining]

theorem startVisitBase_ok (cfg : Cfg) (nid ic : Nat) (st : St) (saved : Nat) (st1 : St)
    (h : startVisitBase cfg nid ic st = .ok (saved, st1)) :
    saved = st.instrCount ∧ st1.instrCount = w32 ic ∧
      st1.ignoreRemaining = st.ignoreRemaining ∧ st1.tracingCall = st.tracingCall ∧
      st1.inCFunc = st.inCFunc ∧ st1.user2 = st.user2 ∧
      (cfg.assertNoDups = false → st1.user1 = st.user1) ∧
      (st1.user1 = st.user1 ∨ st1.user1 = (nid, cfg.startId) :: st.user1) := by
  simp only [startVisitBase] at h
  split at h
  · exact absurd h (by simp)
  · split at h
    · split at h
      · exact absurd h (by simp)
      · rename_i hd _
        simp only [Except.ok.injEq, Prod.mk.injEq] at h
        obtain ⟨h1, h2⟩ := h
        subst h2
        simp_all
    · rename_i hd
      simp only [Except.ok.injEq, Prod.mk.injEq] at h
      obtain ⟨h1, h2⟩ := h
      subst h2
      simp_all

/-- A node that is not a `cfunc` or `active` is skipped untouched when
the visitor is ignoring the remainder of the block. -/
theorem visitA_skip (cfg : Cfg) (a : Ast) (st : St) (hig : st.ignoreRemaining = true)
    (hsk : skipsIgnored a = true) : visitA cfg a st = .ok st := by
  cases a <;> simp_all [visitA, skipsIgnored]

/-- A chain of skippable nodes is skipped untouched in ignore mode. -/
theorem visitL_skip (cfg : Cfg) (l : List Ast) (st : St) (hig : st.ignoreRemaining = true)
    (hsk : ∀ a ∈ l, skipsIgnored a = true) : visitL cfg l st = .ok st := by
  induction l with
  | nil => simp [visitL]
  | cons a rest ih =>
    rw [visitL]
    rw [visitA_skip cfg a st hig (hsk a (by simp))]
    simpa using ih fun b hb => hsk b (by simp [hb])

theorem invOk_refl (d : Bool) (ids : List Nat) (s : St) : InvOk d ids s s :=
  ⟨rfl, fun h => h, fun _ => rfl, [], by simp⟩

theorem invOk_mono (d : Bool) (ids ids2 : List Nat) (s t : St) (h : InvOk d ids s t)
    (hsub : ∀ x ∈ ids, x ∈ ids2) : InvOk d ids2 s t := by
  obtain ⟨h1, h2, h3, w, hw, hm⟩ := h
  exact ⟨h1, h2, h3, w, hw, fun p hp => hsub _ (hm p hp)⟩

theorem invOk_trans (d : Bool) (ids : List Nat) (s t u : St) (h1 : InvOk d ids s t)
    (h2 : InvOk d ids t u) : InvOk d ids s u := by
  obtain ⟨a1, a2, a3, w1, hw1, hm1⟩ := h1
  obtain ⟨b1, b2, b3, w2, hw2, hm2⟩ := h2
  refine ⟨b1.trans a1, fun h => b2 (a2 h), fun h => (b3 h).trans (a3 h), w2 ++ w1, ?_, ?_⟩
  · rw [hw2, hw1, List.append_assoc]
  · intro p hp
    rcases List.mem_append.1 hp with h | h
    · exact hm2 p h
    · exact hm1 p h

theorem invOk_congr (d : Bool) (ids : List Nat) (s t t2 : St) (h : InvOk d ids s t)
    (h1 : t2.user1 = t.user1) (h2 : t2.tracingCall = t.tracingCall)
    (h3 : t2.inCFunc = t.inCFunc) : InvOk d ids s t2 := by
  obtain ⟨a1, a2, a3, w, hw, hm⟩ := h
  exact ⟨h3.trans a1, fun hh => h2.trans (a2 hh), fun hh => h1.trans (a3 hh), w,
    h1.trans hw, hm⟩

theorem invOk_congr_left (d : Bool) (ids : List Nat) (s s2 t : St) (h : InvOk d ids s t)
    (h1 : s.user1 = s2.user1) (h2 : s.tracingCall = s2.tracingCall)
    (h3 : s.inCFunc = s2.inCFunc) : InvOk d ids s2 t := by
  obtain ⟨a1, a2, a3, w, hw, hm⟩ := h
  exact ⟨a1.trans h3, fun hh => a2 (h2.trans hh), fun hh => (a3 hh).trans h1, w,
    hw.trans (by rw [h1]), hm⟩

theorem visitA_node_eq (cfg : Cfg) (nid ic : Nat) (ch : List Ast) (st : St)
    (h : st.ignoreRemaining = false) :
    visitA cfg (.node nid ic ch) st =
      match startVisitBase cfg nid ic st with
      | .error e => .error e
      | .ok (saved, st1) =>
        match visitL cfg ch st1 with
        | .error e => .error e
        | .ok st2 => .ok (endVisitBase cfg saved nid st2) := by
  rw [visitA]
  rw [if_neg (by simp [h])]
  cases hs : startVisitBase cfg nid ic st with
  | error e => simp [hs, bind, Except.bind]
  | ok p =>
    obtain ⟨saved, st1⟩ := p
    cases hl : visitL cfg ch st1 <;> simp [hs, hl, bind, Except.bind]

theorem visitA_nodeSel_eq (cfg : Cfg) (nid ic : Nat) (f : Ast) (bitp : List Ast) (st : St)
    (h : st.ignoreRemaining = false) :
    visitA cfg (.nodeSel nid ic f bitp) st =
      match startVisitBase cfg nid ic st with
      | .error e => .error e
      | .ok (saved, st1) =>
        match visitL cfg bitp st1 with
        | .error e => .error e
        | .ok st2 => .ok (endVisitBase cfg saved nid st2) := by
  rw [visitA]
  rw [if_neg (by simp [h])]
  cases hs : startVisitBase cfg nid ic st with
  | error e => simp [hs, bind, Except.bind]
  | ok p =>
    obtain ⟨saved, st1⟩ := p
    cases hl : visitL cfg bitp st1 <;> simp [hs, hl, bind, Except.bind]

theorem visitA_sel_eq (cfg : Cfg) (nid ic : Nat) (f : Ast) (lsbp : List Ast) (st : St)
    (h : st.ignoreRemaining = false) :
    visitA cfg (.sel nid ic f lsbp) st =
      match startVisitBase cfg nid ic st with
      | .error e => .error e
      | .ok (saved, st1) =>
        match visitL cfg lsbp st1 with
        | .error e => .error e
        | .ok st2 => .ok (endVisitBase cfg saved nid st2) := by
  rw [visitA]
  rw [if_neg (by simp [h])]
  cases hs : startVisitBase cfg nid ic st with
  | error e => simp [hs, bind, Except.bind]
  | ok p =>
    obtain ⟨saved, st1⟩ := p
    cases hl : visitL cfg lsbp st1 <;> simp [hs, hl, bind, Except.bind]

theorem visitA_concat_eq (cfg : Cfg) (nid ic : Nat) (lhsp rhsp : Ast) (st : St)
    (h : st.ignoreRemaining = false) :
    visitA cfg (.concat nid ic lhsp rhsp) st =
      match visitA cfg lhsp st with
      | .error e => .error e
      | .ok st1 =>
        match visitA cfg rhsp st1 with
        | .error e => .error e
        | .ok st2 => .ok (markCost cfg nid st2) := by
  rw [visitA]
  rw [if_neg (by simp [h])]
  cases hs : visitA cfg lhsp st with
  | error e => simp [hs, bind, Except.bind]
  | ok st1 => cases hl : visitA cfg rhsp st1 <;> simp [hs, hl, bind, Except.bind]

theorem visitA_nodeIf_eq (cfg : Cfg) (nid ic : Nat) (condp thensp elsesp : List Ast)
    (pred : BranchPred) (st : St) (h : st.ignoreRemaining = false) :
    visitA cfg (.nodeIf nid ic condp thensp elsesp pred) st =
      match startVisitBase cfg nid ic st with
      | .error e => .error e
      | .ok (saved, st1) =>
        match visitL cfg condp st1 with
        | .error e => .error e
        | .ok st2 =>
          match visitL cfg thensp (resetSt st2) with
          | .error e => .error e
          | .ok st3 =>
            match visitL cfg elsesp (resetSt st3) with
            | .error e => .error e
            | .ok st4 =>
              let savedCount := st2.instrCount
              let ifCount := if pred = .bpUnlikely then 0 else st3.instrCount
              let elseCount := if pred = .bpLikely then 0 else st4.instrCount
              let st5 := resetSt st4
              let st6 :=
                if elseCount ≤ ifCount then
                  { st5 with instrCount := add32 savedCount ifCount,
                             user2 := zeroHead elsesp st5.user2 }
                else
                  { st5 with instrCount := add32 savedCount elseCount,
                             user2 := zeroHead thensp st5.user2 }
              .ok (endVisitBase cfg saved nid st6) := by
  rw [visitA]
  rw [if_neg (by simp [h])]
  cases hs : startVisitBase cfg nid ic st with
  | error e => simp [hs, bind, Except.bind]
  | ok p =>
    obtain ⟨saved, st1⟩ := p
    cases h2 : visitL cfg condp st1 with
    | error e => simp [hs, h2, bind, Except.bind]
    | ok st2 =>
      cases h3 : visitL cfg thensp (resetSt st2) with
      | error e => simp [hs, h2, h3, bind, Except.bind]
      | ok st3 =>
        cases h4 : visitL cfg elsesp (resetSt st3) <;>
          simp [hs, h2, h3, h4, bind, Except.bind]

theorem visitA_cond_eq (cfg : Cfg) (nid ic : Nat) (condp thenp elsep : List Ast) (st : St)
    (h : st.ignoreRemaining = false) :
    visitA cfg (.cond nid ic condp thenp elsep) st =
      match startVisitBase cfg nid ic st with
      | .error e => .error e
      | .ok (saved, st1) =>
        match visitL cfg condp st1 with
        | .error e => .error e
        | .ok st2 =>
          match visitL cfg thenp (resetSt st2) with
          | .error e => .error e
          | .ok st3 =>
            match visitL cfg elsep (resetSt st3) with
            | .error e => .error e
            | .ok st4 =>
              let savedCount := st2.instrCount
              let st5 := resetSt st4
              let st6 :=
                if st4.instrCount ≤ st3.instrCount then
                  { st5 with instrCount := add32 savedCount st3.instrCount,
                             user2 := zeroHead elsep st5.user2 }
                else
                  { st5 with instrCount := add32 savedCount st4.instrCount,
                             user2 := zeroHead thenp st5.user2 }
              .ok (endVisitBase cfg saved nid st6) := by
  rw [visitA]
  rw [if_neg (by simp [h])]
  cases hs : startVisitBase cfg nid ic st with
  | error e => simp [hs, bind, Except.bind]
  | ok p =>
    obtain ⟨saved, st1⟩ := p
    cases h2 : visitL cfg condp st1 with
    | error e => simp [hs, h2, bind, Except.bind]
    | ok st2 =>
      cases h3 : visitL cfg thenp (resetSt st2) with
      | error e => simp [hs, h2, h3, bind, Except.bind]
      | ok st3 =>
        cases h4 : visitL cfg elsep (resetSt st3) <;>
          simp [hs, h2, h3, h4, bind, Except.bind]

theorem visitA_cawait_eq (cfg : Cfg) (nid ic : Nat) (exprsp : List Ast) (st : St)
    (h : st.ignoreRemaining = false) :
    visitA cfg (.cawait nid ic exprsp) st =
      match visitL cfg exprsp st with
      | .error e => .error e
      | .ok st1 => .ok { st1 with ignoreRemaining := true } := by
  rw [visitA]
  rw [if_neg (by simp [h])]
  cases hl : visitL cfg exprsp st <;> simp [hl, bind, Except.bind]

theorem visitA_fork_eq (cfg : Cfg) (nid ic : Nat) (stmtsp : List Ast) (st : St)
    (h : st.ignoreRemaining = false) :
    visitA cfg (.fork nid ic stmtsp) st =
      match startVisitBase cfg nid ic st with
      | .error e => .error e
      | .ok (saved, st1) =>
        match forkStmts cfg stmtsp st1.instrCount st1 with
        | .error e => .error e
        | .ok (total, st2) =>
          .ok (endVisitBase cfg saved nid
                { st2 with instrCount := total, ignoreRemaining := false }) := by
  rw [visitA]
  rw [if_neg (by simp [h])]
  cases hs : startVisitBase cfg nid ic st with
  | error e => simp [hs, bind, Except.bind]
  | ok p =>
    obtain ⟨saved, st1⟩ := p
    cases hf : forkStmts cfg stmtsp st1.instrCount st1 with
    | error e => simp [hs, hf, bind, Except.bind]
    | ok q =>
      obtain ⟨total, st2⟩ := q
      simp [hs, hf, bind, Except.bind]

theorem visitA_ccall_eq (cfg : Cfg) (nid ic : Nat) (argsp : List Ast) (funcp : Ast) (st : St)
    (h : st.ignoreRemaining = false) :
    visitA cfg (.ccall nid ic argsp funcp) st =
      match startVisitBase cfg nid ic st with
      | .error e => .error e
      | .ok (saved, st1) =>
        match visitL cfg argsp st1 with
        | .error e => .error e
        | .ok st2 =>
          match visitA cfg funcp { st2 with tracingCall := true } with
          | .error e => .error e
          | .ok st3 =>
            if st3.tracingCall then .error (.tracingNotCleared nid)
            else .ok (endVisitBase cfg saved nid st3) := by
  rw [visitA]
  rw [if_neg (by simp [h])]
  cases hs : startVisitBase cfg nid ic st with
  | error e => simp [hs, bind, Except.bind]
  | ok p =>
    obtain ⟨saved, st1⟩ := p
    cases h2 : visitL cfg argsp st1 with
    | error e => simp [hs, h2, bind, Except.bind]
    | ok st2 =>
      cases h3 : visitA cfg funcp { st2 with tracingCall := true } <;>
        simp [hs, h2, h3, bind, Except.bind]

theorem visitA_cfunc_eq (cfg : Cfg) (nid ic : Nat) (stmtsp : List Ast) (st : St)
    (hok : (st.tracingCall || nid == cfg.startId) = true)
    (h : st.ignoreRemaining = false) :
    visitA cfg (.cfunc nid ic stmtsp) st =
      match startVisitBase cfg nid ic { st with tracingCall := false, inCFunc := true } with
      | .error e => .error e
      | .ok (saved, st2) =>
        match visitL cfg stmtsp st2 with
        | .error e => .error e
        | .ok st3 =>
          .ok { endVisitBase cfg saved nid st3 with
                  ignoreRemaining := false, inCFunc := st.inCFunc } := by
  rw [visitA]
  rw [if_neg (by simp [hok])]
  rw [if_neg (by simp [h])]
  cases hs : startVisitBase cfg nid ic { st with tracingCall := false, inCFunc := true } with
  | error e => simp [hs, bind, Except.bind]
  | ok p =>
    obtain ⟨saved, st2⟩ := p
    cases hl : visitL cfg stmtsp st2 <;> simp [hs, hl, bind, Except.bind]

theorem visitA_active_eq (cfg : Cfg) (nid ic : Nat) (stmtsp : List Ast) (st : St) :
    visitA cfg (.active nid ic stmtsp) st =
      if nid = cfg.startId then .ok (markCost cfg nid st)
      else .error (.multipleActives nid) := by
  rw [visitA]
  by_cases hn : nid = cfg.startId <;> simp [hn]

theorem visitL_cons_eq (cfg : Cfg) (a : Ast) (rest : List Ast) (st : St) :
    visitL cfg (a :: rest) st =
      match visitA cfg a st with
      | .error e => .error e
      | .ok st1 => visitL cfg rest st1 := by
  rw [visitL]
  cases hs : visitA cfg a st <;> simp [hs, bind, Except.bind]

theorem visitL_nil_eq (cfg : Cfg) (st : St) : visitL cfg [] st = .ok st := by
  rw [visitL]

theorem forkStmts_cons_eq (cfg : Cfg) (s : Ast) (rest : List Ast) (total : Nat) (st : St) :
    forkStmts cfg (s :: rest) total st =
      match visitA cfg s (resetSt st) with
      | .error e => .error e
      | .ok st1 => forkStmts cfg rest (add32 total st1.instrCount) st1 := by
  rw [forkStmts]
  cases hs : visitA cfg s (resetSt st) <;> simp [hs, bind, Except.bind]

theorem forkStmts_nil_eq (cfg : Cfg) (total : Nat) (st : St) :
    forkStmts cfg [] total st = .ok (total, st) := by
  rw [forkStmts]

theorem fuelAdequate : ∀ n : Nat,
    (∀ a : Ast, sizeOf a < n → ∀ (cfg : Cfg) (st : St),
      visitAF n cfg a st = some (visitA cfg a st)) ∧
    (∀ l : List Ast, sizeOf l ≤ n → ∀ (cfg : Cfg) (st : St),
      visitLF n cfg l st = some (visitL cfg l st)) ∧
    (∀ l : List Ast, sizeOf l ≤ n → ∀ (cfg : Cfg) (tot : Nat) (st : St),
      forkStmtsF n cfg l tot st = some (forkStmts cfg l tot st)) := by
  intro n
  induction n with
  | zero =>
    refine ⟨fun a h => absurd h (Nat.not_lt_zero _), ?_, ?_⟩
    · intro l h
      exact absurd h (by cases l <;> simp)
    · intro l h
      exact absurd h (by cases l <;> simp)
  | succ n ih =>
    obtain ⟨ihA, ihL, ihF⟩ := ih
    have hA : ∀ a : Ast, sizeOf a < n + 1 → ∀ (cfg : Cfg) (st : St),
        visitAF (n + 1) cfg a st = some (visitA cfg a st) := by
      intro a ha cfg st
      cases a with
      | node nid ic ch =>
        have hsz : sizeOf ch ≤ n := by simp at ha; omega
        rw [visitAF]
        by_cases hig : st.ignoreRemaining = true
        · rw [if_pos hig, visitA_skip cfg (.node nid ic ch) st hig rfl]
        · rw [if_neg hig, visitA_node_eq cfg nid ic ch st (by simpa using hig)]
          cases hs : startVisitBase cfg nid ic st with
          | error e => simp
          | ok p =>
            obtain ⟨saved, st1⟩ := p
            simp only []
            rw [ihL ch hsz cfg st1]
            cases hl : visitL cfg ch st1 <;> simp
      | nodeSel nid ic f bitp =>
        have hsz : sizeOf bitp ≤ n := by simp at ha; omega
        rw [visitAF]
        by_cases hig : st.ignoreRemaining = true
        · rw [if_pos hig, visitA_skip cfg (.nodeSel nid ic f bitp) st hig rfl]
        · rw [if_neg hig, visitA_nodeSel_eq cfg nid ic f bitp st (by simpa using hig)]
          cases hs : startVisitBase cfg nid ic st with
          | error e => simp
          | ok p =>
            obtain ⟨saved, st1⟩ := p
            simp only []
            rw [ihL bitp hsz cfg st1]
            cases hl : visitL cfg bitp st1 <;> simp
      | sel nid ic f lsbp =>
        have hsz : sizeOf lsbp ≤ n := by simp at ha; omega
        rw [visitAF]
        by_cases hig : st.ignoreRemaining = true
        · rw [if_pos hig, visitA_skip cfg (.sel nid ic f lsbp) st hig rfl]
        · rw [if_neg hig, visitA_sel_eq cfg nid ic f lsbp st (by simpa using hig)]
          cases hs : startVisitBase cfg nid ic st with
          | error e => simp
          | ok p =>
            obtain ⟨saved, st1⟩ := p
            simp only []
            rw [ihL lsbp hsz cfg st1]
            cases hl : visitL cfg lsbp st1 <;> simp
      | concat nid ic lhsp rhsp =>
        have hsz1 : sizeOf lhsp < n := by simp at ha; omega
        have hsz2 : sizeOf rhsp < n := by simp at ha; omega
        rw [visitAF]
        by_cases hig : st.ignoreRemaining = true
        · rw [if_pos hig, visitA_skip cfg (.concat nid ic lhsp rhsp) st hig rfl]
        · rw [if_neg hig, visitA_concat_eq cfg nid ic lhsp rhsp st (by simpa using hig)]
          rw [ihA lhsp (by omega) cfg st]
          cases h1 : visitA cfg lhsp st with
          | error e => simp
          | ok st1 =>
            simp only []
            rw [ihA rhsp (by omega) cfg st1]
            cases h2 : visitA cfg rhsp st1 <;> simp
      | nodeIf nid ic condp thensp elsesp pred =>
        have hsz1 : sizeOf condp ≤ n := by simp at ha; omega
        have hsz2 : sizeOf thensp ≤ n := by simp at ha; omega
        have hsz3 : sizeOf elsesp ≤ n := by simp at ha; omega
        rw [visitAF]
        by_cases hig : st.ignoreRemaining = true
        · rw [if_pos hig, visitA_skip cfg (.nodeIf nid ic condp thensp elsesp pred) st hig rfl]
        · rw [if_neg hig,
            visitA_nodeIf_eq cfg nid ic condp thensp elsesp pred st (by simpa using hig)]
          cases hs : startVisitBase cfg nid ic st with
          | error e => simp
          | ok p =>
            obtain ⟨saved, st1⟩ := p
            simp only []
            rw [ihL condp hsz1 cfg st1]
            cases h1 : visitL cfg condp st1 with
            | error e => simp
            | ok st2 =>
              simp only []
              rw [ihL thensp hsz2 cfg (resetSt st2)]
              cases h2 : visitL cfg thensp (resetSt st2) with
              | error e => simp
              | ok st3 =>
                simp only []
                rw [ihL elsesp hsz3 cfg (resetSt st3)]
                cases h3 : visitL cfg elsesp (resetSt st3) <;> simp
      | cond nid ic condp thenp elsep =>
        have hsz1 : sizeOf condp ≤ n := by simp at ha; omega
        have hsz2 : sizeOf thenp ≤ n := by simp at ha; omega
        have hsz3 : sizeOf elsep ≤ n := by simp at ha; omega
        rw [visitAF]
        by_cases hig : st.ignoreRemaining = true
        · rw [if_pos hig, visitA_skip cfg (.cond nid ic condp thenp elsep) st hig rfl]
        · rw [if_neg hig,
            visitA_cond_eq cfg nid ic condp thenp elsep st (by simpa using hig)]
          cases hs : startVisitBase cfg nid ic st with
          | error e => simp
          | ok p =>
            obtain ⟨saved, st1⟩ := p
            simp only []
            rw [ihL condp hsz1 cfg st1]
            cases h1 : visitL cfg condp st1 with
            | error e => simp
            | ok st2 =>
              simp only []
              rw [ihL thenp hsz2 cfg (resetSt st2)]
              cases h2 : visitL cfg thenp (resetSt st2) with
              | error e => simp
              | ok st3 =>
                simp only []
                rw [ihL elsep hsz3 cfg (resetSt st3)]
                cases h3 : visitL cfg elsep (resetSt st3) <;> simp
      | cawait nid ic exprsp =>
        have hsz : sizeOf exprsp ≤ n := by simp at ha; omega
        rw [visitAF]
        by_cases hig : st.ignoreRemaining = true
        · rw [if_pos hig, visitA_skip cfg (.cawait nid ic exprsp) st hig rfl]
        · rw [if_neg hig, visitA_cawait_eq cfg nid ic exprsp st (by simpa using hig)]
          rw [ihL exprsp hsz cfg st]
          cases h1 : visitL cfg exprsp st <;> simp
      | fork nid ic stmtsp =>
        have hsz : sizeOf stmtsp ≤ n := by simp at ha; omega
        rw [visitAF]
        by_cases hig : st.ignoreRemaining = true
        · rw [if_pos hig, visitA_skip cfg (.fork nid ic stmtsp) st hig rfl]
        · rw [if_neg hig, visitA_fork_eq cfg nid ic stmtsp st (by simpa using hig)]
          cases hs : startVisitBase cfg nid ic st with
          | error e => simp
          | ok p =>
            obtain ⟨saved, st1⟩ := p
            simp only []
            rw [ihF stmtsp hsz cfg st1.instrCount st1]
            cases hf : forkStmts cfg stmtsp st1.instrCount st1 with
            | error e => simp
            | ok q => obtain ⟨total, st2⟩ := q; simp
      | ccall nid ic argsp funcp =>
        have hsz1 : sizeOf argsp ≤ n := by simp at ha; omega
        have hsz2 : sizeOf funcp < n := by simp at ha; omega
        rw [visitAF]
        by_cases hig : st.ignoreRemaining = true
        · rw [if_pos hig, visitA_skip cfg (.ccall nid ic argsp funcp) st hig rfl]
        · rw [if_neg hig, visitA_ccall_eq cfg nid ic argsp funcp st (by simpa using hig)]
          cases hs : startVisitBase cfg nid ic st with
          | error e => simp
          | ok p =>
            obtain ⟨saved, st1⟩ := p
            simp only []
            rw [ihL argsp hsz1 cfg st1]
            cases h1 : visitL cfg argsp st1 with
            | error e => simp
            | ok st2 =>
              simp only []
              rw [ihA funcp hsz2 cfg { st2 with tracingCall := true }]
              cases h2 : visitA cfg funcp { st2 with tracingCall := true } with
              | error e => simp
              | ok st3 =>
                simp only []
                by_cases htc : st3.tracingCall = true
                · rw [if_pos htc, if_pos htc]
                · rw [if_neg htc, if_neg htc]
      | cfunc nid ic stmtsp =>
        have hsz : sizeOf stmtsp ≤ n := by simp at ha; omega
        rw [visitAF]
        by_cases hg : (st.tracingCall || (nid == cfg.startId)) = true
        · have hng : ¬((!(st.tracingCall || (nid == cfg.startId))) = true) := by simp [hg]
          by_cases hig : st.ignoreRemaining = true
          · rw [if_neg hng, if_pos hig]
            rw [visitA]
            rw [if_neg hng, if_pos hig]
          · rw [if_neg hng, if_neg hig]
            rw [visitA_cfunc_eq cfg nid ic stmtsp st (by simpa using hg) (by simpa using hig)]
            simp only []
            cases hs : startVisitBase cfg nid ic
                { st with tracingCall := false, inCFunc := true } with
            | error e => simp
            | ok p =>
              obtain ⟨saved, st2⟩ := p
              simp only []
              rw [ihL stmtsp hsz cfg st2]
              cases hl : visitL cfg stmtsp st2 <;> simp
        · have hng : (!(st.tracingCall || (nid == cfg.startId))) = true := by
            simpa using hg
          rw [if_pos hng]
          rw [visitA]
          rw [if_pos hng]
      | active nid ic stmtsp =>
        rw [visitAF, visitA_active_eq]
        by_cases hn : nid = cfg.startId
        · have hb : (nid == cfg.startId) = true := by simpa using hn
          rw [if_pos hn]
          simp [hb]
        · have hb : (nid == cfg.startId) = false := by simpa using hn
          rw [if_neg hn]
          simp [hb]
    refine ⟨hA, ?_, ?_⟩
    · intro l hl cfg st
      induction l generalizing st with
      | nil => rw [visitLF, visitL]
      | cons a rest ihRest =>
        have hsa : sizeOf a < n + 1 := by simp at hl; omega
        have hsr : sizeOf rest ≤ n + 1 := by simp at hl; omega
        rw [visitLF, visitL_cons_eq, hA a hsa cfg st]
        cases h1 : visitA cfg a st with
        | error e => simp
        | ok st1 =>
          simp only []
          exact ihRest hsr st1
    · intro l hl cfg tot st
      induction l generalizing tot st with
      | nil => rw [forkStmtsF, forkStmts]
      | cons a rest ihRest =>
        have hsa : sizeOf a < n + 1 := by simp at hl; omega
        have hsr : sizeOf rest ≤ n + 1 := by simp at hl; omega
        rw [forkStmtsF, forkStmts_cons_eq, hA a hsa cfg (resetSt st)]
        cases h1 : visitA cfg a (resetSt st) with
        | error e => simp
        | ok st1 =>
          simp only []
          exact ihRest hsr (add32 tot st1.instrCount) st1

theorem invOk_start (cfg : Cfg) (nid ic : Nat) (st : St) (saved : Nat) (st1 : St)
    (ids : List Nat) (h : startVisitBase cfg nid ic st = .ok (saved, st1))
    (hmem : nid ∈ ids) : InvOk cfg.assertNoDups ids st st1 := by
  obtain ⟨-, -, -, h4, h5, -, h7, h8⟩ := startVisitBase_ok cfg nid ic st saved st1 h
  rcases h8 with h8 | h8
  · exact ⟨h5, fun hh => h4.trans hh, fun _ => h8, [], by simp [h8], by simp⟩
  · exact ⟨h5, fun hh => h4.trans hh, h7, [(nid, cfg.startId)], by simp [h8], by simp [hmem]⟩

theorem ite_user1 (c : Prop) [Decidable c] (A B : St) (x : List (Nat × Nat))
    (hA : A.user1 = x) (hB : B.user1 = x) : (if c then A else B).user1 = x := by
  split <;> assumption

theorem ite_tracingCall (c : Prop) [Decidable c] (A B : St) (x : Bool)
    (hA : A.tracingCall = x) (hB : B.tracingCall = x) : (if c then A else B).tracingCall = x := by
  split <;> assumption

theorem ite_inCFunc (c : Prop) [Decidable c] (A B : St) (x : Bool)
    (hA : A.inCFunc = x) (hB : B.inCFunc = x) : (if c then A else B).inCFunc = x := by
  split <;> assumption

theorem invOk_setTracing (d : Bool) (ids : List Nat) (s t : St)
    (h : InvOk d ids { s with tracingCall := true } t) (ht : t.tracingCall = false) :
    InvOk d ids s t := by
  obtain ⟨a1, _, a3, w, hw, hm⟩ := h
  exact ⟨a1, fun _ => ht, a3, w, hw, hm⟩

theorem relE_ok (R : St → St → Prop) (s t : St) (h : R s t) : RelE R (.ok s) (.ok t) := h

theorem relE_cases (R : St → St → Prop) (x y : Except VErr St) (h : RelE R x y) :
    (∃ e, x = .error e ∧ y = .error e) ∨ (∃ s t, x = .ok s ∧ y = .ok t ∧ R s t) := by
  cases x with
  | error e =>
    cases y with
    | error f => exact Or.inl ⟨e, rfl, by rw [show f = e from h.symm]⟩
    | ok t => exact absurd h (by simp [RelE])
  | ok s =>
    cases y with
    | error f => exact absurd h (by simp [RelE])
    | ok t => exact Or.inr ⟨s, t, rfl, rfl, h⟩

theorem relP_cases (R : St → St → Prop) (x y : Except VErr (Nat × St)) (h : RelP R x y) :
    (∃ e, x = .error e ∧ y = .error e) ∨
      (∃ v s t, x = .ok (v, s) ∧ y = .ok (v, t) ∧ R s t) := by
  cases x with
  | error e =>
    cases y with
    | error f => exact Or.inl ⟨e, rfl, by rw [show f = e from h.symm]⟩
    | ok q => obtain ⟨v2, t⟩ := q; exact absurd h (by simp [RelP])
  | ok p =>
    obtain ⟨v, s⟩ := p
    cases y with
    | error f => exact absurd h (by simp [RelP])
    | ok q =>
      obtain ⟨v2, t⟩ := q
      exact Or.inr ⟨v, s, t, rfl, by rw [show v2 = v from h.1.symm], h.2⟩

theorem eqU2_refl (s : St) : EqU2 s s := ⟨rfl, rfl, rfl, rfl, rfl⟩

theorem markCost_rel (c1 c2 : Cfg) (nid : Nat) (s t : St) (h : EqU2 s t) :
    EqU2 (markCost c1 nid s) (markCost c2 nid t) := by
  obtain ⟨e1, e2, e3, e4, e5⟩ := h
  exact ⟨by rw [markCost_instrCount, markCost_instrCount, e1],
    by rw [markCost_ignoreRemaining, markCost_ignoreRemaining, e2],
    by rw [markCost_tracingCall, markCost_tracingCall, e3],
    by rw [markCost_inCFunc, markCost_inCFunc, e4],
    by rw [markCost_user1, markCost_user1, e5]⟩

theorem endVisitBase_rel (c1 c2 : Cfg) (sv nid : Nat) (s t : St) (h : EqU2 s t) :
    EqU2 (endVisitBase c1 sv nid s) (endVisitBase c2 sv nid t) := by
  have hm := markCost_rel c1 c2 nid s t h
  obtain ⟨e1, e2, e3, e4, e5⟩ := hm
  simp only [endVisitBase]
  rw [← e2]
  split
  · exact ⟨e1, e2, e3, e4, e5⟩
  · exact ⟨by simp [e1], by simp [e2], by simp [e3], by simp [e4], by simp [e5]⟩

theorem resetSt_rel (s t : St) (h : EqU2 s t) : EqU2 (resetSt s) (resetSt t) := by
  obtain ⟨e1, e2, e3, e4, e5⟩ := h
  exact ⟨rfl, rfl, e3, e4, e5⟩

theorem startVisitBase_rel (d o1 o2 : Bool) (sid nid ic : Nat) (s t : St) (h : EqU2 s t) :
    (∃ e, startVisitBase ⟨d, o1, sid⟩ nid ic s = .error e ∧
          startVisitBase ⟨d, o2, sid⟩ nid ic t = .error e) ∨
      (∃ sv s1 t1, startVisitBase ⟨d, o1, sid⟩ nid ic s = .ok (sv, s1) ∧
          startVisitBase ⟨d, o2, sid⟩ nid ic t = .ok (sv, t1) ∧ EqU2 s1 t1) := by
  obtain ⟨e1, e2, e3, e4, e5⟩ := h
  simp only [startVisitBase, ← e1, ← e2, ← e4, ← e5]
  by_cases hi : s.ignoreRemaining = true
  · rw [if_pos hi, if_pos hi]
    exact Or.inl ⟨_, rfl, rfl⟩
  · rw [if_neg hi, if_neg hi]
    by_cases hd : (d && !s.inCFunc) = true
    · simp only [show (Cfg.mk d o1 sid).assertNoDups = d from rfl,
        show (Cfg.mk d o2 sid).assertNoDups = d from rfl, if_pos hd]
      cases hl : List.lookup nid s.user1 with
      | some prev => exact Or.inl ⟨_, rfl, rfl⟩
      | none =>
        refine Or.inr ⟨s.instrCount, _, _, rfl, rfl, rfl, rfl, e3, rfl, rfl⟩
    · simp only [show (Cfg.mk d o1 sid).assertNoDups = d from rfl,
        show (Cfg.mk d o2 sid).assertNoDups = d from rfl, if_neg hd]
      exact Or.inr ⟨s.instrCount, _, _, rfl, rfl, rfl, rfl, e3, rfl, rfl⟩

theorem ite_eqU2 (c : Prop) [Decidable c] (A B A2 B2 : St) (hA : EqU2 A A2)
    (hB : EqU2 B B2) : EqU2 (if c then A else B) (if c then A2 else B2) := by
  by_cases h : c
  · rw [if_pos h, if_pos h]; exact hA
  · rw [if_neg h, if_neg h]; exact hB

theorem lookup_append (k : Nat) (l1 l2 : List (Nat × Nat)) (h : List.lookup k l2 = none) :
    List.lookup k (l1 ++ l2) = List.lookup k l1 := by
  induction l1 with
  | nil => simpa using h
  | cons p rest ih =>
    obtain ⟨a, b⟩ := p
    by_cases hk : k = a
    · simp [List.lookup, hk]
    · have hb : (k == a) = false := by simpa using hk
      simp only [List.cons_append, List.lookup, hb]
      simpa using ih

theorem startVisitBase_app (cfg : Cfg) (nid ic : Nat) (s : St) (u : List (Nat × Nat))
    (hu : List.lookup nid u = none) :
    (∃ e, startVisitBase cfg nid ic s = .error e ∧
        startVisitBase cfg nid ic { s with user1 := s.user1 ++ u } = .error e) ∨
      (∃ sv s1, startVisitBase cfg nid ic s = .ok (sv, s1) ∧
        startVisitBase cfg nid ic { s with user1 := s.user1 ++ u } =
          .ok (sv, { s1 with user1 := s1.user1 ++ u }) ∧ s1.user2 = s.user2) := by
  simp only [startVisitBase]
  by_cases hi : s.ignoreRemaining = true
  · rw [if_pos hi, if_pos hi]
    exact Or.inl ⟨_, rfl, rfl⟩
  · rw [if_neg hi, if_neg hi]
    by_cases hd : (cfg.assertNoDups && !s.inCFunc) = true
    · rw [if_pos hd]
      rw [if_pos (by simpa using hd)]
      rw [lookup_append nid s.user1 u hu]
      cases hl : List.lookup nid s.user1 with
      | some prev => exact Or.inl ⟨_, rfl, rfl⟩
      | none => exact Or.inr ⟨s.instrCount, _, rfl, rfl, rfl⟩
    · rw [if_neg hd]
      rw [if_neg (by simpa using hd)]
      exact Or.inr ⟨s.instrCount, _, rfl, rfl, rfl⟩

theorem markCost_app (cfg : Cfg) (nid : Nat) (s : St) (u : List (Nat × Nat)) :
    markCost cfg nid { s with user1 := s.user1 ++ u } =
      { markCost cfg nid s with user1 := (markCost cfg nid s).user1 ++ u } := by
  simp only [markCost]
  split <;> rfl

theorem endVisitBase_app (cfg : Cfg) (sv nid : Nat) (s : St) (u : List (Nat × Nat)) :
    endVisitBase cfg sv nid { s with user1 := s.user1 ++ u } =
      { endVisitBase cfg sv nid s with user1 := (endVisitBase cfg sv nid s).user1 ++ u } := by
  simp only [endVisitBase, markCost_app]
  split <;> rfl

theorem endVisitBase_app2 (cfg : Cfg) (sv nid : Nat) (S T : St) (u : List (Nat × Nat))
    (h : T = { S with user1 := S.user1 ++ u }) :
    AppU1 u (endVisitBase cfg sv nid S) (endVisitBase cfg sv nid T) := by
  subst h
  exact endVisitBase_app cfg sv nid S u

theorem ite_app_eq (c : Prop) [Decidable c] (A B A2 B2 : St) (u : List (Nat × Nat))
    (hA : A2 = { A with user1 := A.user1 ++ u }) (hB : B2 = { B with user1 := B.user1 ++ u }) :
    (if c then A2 else B2) =
      { (if c then A else B) with user1 := (if c then A else B).user1 ++ u } := by
  by_cases h : c
  · rw [if_pos h, if_pos h]; exact hA
  · rw [if_neg h, if_neg h]; exact hB

theorem lemApp : ∀ n : Nat,
    (∀ a : Ast, sizeOf a < n → ∀ (cfg : Cfg) (s : St) (u : List (Nat × Nat)),
      (∀ k ∈ astIds a, List.lookup k u = none) →
      RelE (AppU1 u) (visitA cfg a s) (visitA cfg a { s with user1 := s.user1 ++ u })) ∧
    (∀ l : List Ast, sizeOf l < n → ∀ (cfg : Cfg) (s : St) (u : List (Nat × Nat)),
      (∀ k ∈ astIdsL l, List.lookup k u = none) →
      RelE (AppU1 u) (visitL cfg l s) (visitL cfg l { s with user1 := s.user1 ++ u })) ∧
    (∀ l : List Ast, sizeOf l < n → ∀ (cfg : Cfg) (tot : Nat) (s : St) (u : List (Nat × Nat)),
      (∀ k ∈ astIdsL l, List.lookup k u = none) →
      RelP (AppU1 u) (forkStmts cfg l tot s)
        (forkStmts cfg l tot { s with user1 := s.user1 ++ u })) := by
  intro n
  induction n with
  | zero =>
    exact ⟨fun a h => absurd h (Nat.not_lt_zero _), fun l h => absurd h (Nat.not_lt_zero _),
      fun l h => absurd h (Nat.not_lt_zero _)⟩
  | succ n ih =>
    obtain ⟨ihA, ihL, ihF⟩ := ih
    refine ⟨?_, ?_, ?_⟩
    · intro a ha cfg s u hu
      by_cases hig : s.ignoreRemaining = true
      case pos =>
        by_cases hsk : skipsIgnored a = true
        · rw [visitA_skip _ _ _ hig hsk, visitA_skip _ _ _ (by exact hig) hsk]
          exact relE_ok _ _ _ rfl
        · cases a <;> simp [skipsIgnored] at hsk
          · -- cfunc in ignore mode
            rename_i nid ic stmtsp
            rw [visitA]; rw [visitA]
            by_cases hg : (s.tracingCall || (nid == cfg.startId)) = true
            · have hng : ¬((!(s.tracingCall || (nid == cfg.startId))) = true) := by simp [hg]
              simp only [if_neg hng, if_pos hig]
              exact rfl
            · have hng : (!(s.tracingCall || (nid == cfg.startId))) = true := by simp_all
              simp only [if_pos hng]
              exact rfl
          · -- active in ignore mode
            rename_i nid ic stmtsp
            rw [visitA_active_eq, visitA_active_eq]
            by_cases hn : nid = cfg.startId
            · rw [if_pos hn, if_pos hn]
              exact relE_ok _ _ _ (markCost_app cfg nid s u)
            · rw [if_neg hn, if_neg hn]
              exact rfl
      case neg =>
        rw [Bool.not_eq_true] at hig
        have hAux : ({ s with user1 := s.user1 ++ u } : St).ignoreRemaining = false := hig
        cases a with
        | node nid ic ch =>
          have hsz : sizeOf ch < n := by simp at ha; omega
          rw [visitA_node_eq cfg nid ic ch s hig, visitA_node_eq cfg nid ic ch _ hAux]
          rcases startVisitBase_app cfg nid ic s u
              (hu nid (by rw [astIds]; simp)) with
            ⟨e, hs1, hs2⟩ | ⟨sv, s1, hs1, hs2, -⟩
          · rw [hs1, hs2]; exact rfl
          · rw [hs1, hs2]
            simp only []
            rcases relE_cases _ _ _ (ihL ch hsz cfg s1 u
                (fun k hk => hu k (by rw [astIds]; simp [hk]))) with
              ⟨e, hl1, hl2⟩ | ⟨s2, t2, hl1, hl2, hA2⟩
            · rw [hl1, hl2]; exact rfl
            · rw [hl1]
              rw [show ({ s1 with user1 := s1.user1 ++ u } : St) =
                { s1 with user1 := s1.user1 ++ u } from rfl] at hl2
              rw [hl2]
              rw [hA2]
              exact relE_ok _ _ _ (endVisitBase_app cfg sv nid s2 u)
        | nodeSel nid ic f bitp =>
          have hsz : sizeOf bitp < n := by simp at ha; omega
          rw [visitA_nodeSel_eq cfg nid ic f bitp s hig,
            visitA_nodeSel_eq cfg nid ic f bitp _ hAux]
          rcases startVisitBase_app cfg nid ic s u
              (hu nid (by rw [astIds]; simp)) with
            ⟨e, hs1, hs2⟩ | ⟨sv, s1, hs1, hs2, -⟩
          · rw [hs1, hs2]; exact rfl
          · rw [hs1, hs2]
            simp only []
            rcases relE_cases _ _ _ (ihL bitp hsz cfg s1 u
                (fun k hk => hu k (by rw [astIds]; simp [hk]))) with
              ⟨e, hl1, hl2⟩ | ⟨s2, t2, hl1, hl2, hA2⟩
            · rw [hl1, hl2]; exact rfl
            · rw [hl1, hl2, hA2]
              exact relE_ok _ _ _ (endVisitBase_app cfg sv nid s2 u)
        | sel nid ic f lsbp =>
          have hsz : sizeOf lsbp < n := by simp at ha; omega
          rw [visitA_sel_eq cfg nid ic f lsbp s hig, visitA_sel_eq cfg nid ic f lsbp _ hAux]
          rcases startVisitBase_app cfg nid ic s u
              (hu nid (by rw [astIds]; simp)) with
            ⟨e, hs1, hs2⟩ | ⟨sv, s1, hs1, hs2, -⟩
          · rw [hs1, hs2]; exact rfl
          · rw [hs1, hs2]
            simp only []
            rcases relE_cases _ _ _ (ihL lsbp hsz cfg s1 u
                (fun k hk => hu k (by rw [astIds]; simp [hk]))) with
              ⟨e, hl1, hl2⟩ | ⟨s2, t2, hl1, hl2, hA2⟩
            · rw [hl1, hl2]; exact rfl
            · rw [hl1, hl2, hA2]
              exact relE_ok _ _ _ (endVisitBase_app cfg sv nid s2 u)
        | concat nid ic lhsp rhsp =>
          have hsz1 : sizeOf lhsp < n := by simp at ha; omega
          have hsz2 : sizeOf rhsp < n := by simp at ha; omega
          rw [visitA_concat_eq cfg nid ic lhsp rhsp s hig,
            visitA_concat_eq cfg nid ic lhsp rhsp _ hAux]
          rcases relE_cases _ _ _ (ihA lhsp hsz1 cfg s u
              (fun k hk => hu k (by rw [astIds]; simp [hk]))) with
            ⟨e, h1, h2⟩ | ⟨s1, t1, h1, h2, hA1⟩
          · rw [h1, h2]; exact rfl
          · rw [h1, h2, hA1]
            simp only []
            rcases relE_cases _ _ _ (ihA rhsp hsz2 cfg s1 u
                (fun k hk => hu k (by rw [astIds]; simp [hk]))) with
              ⟨e, h3, h4⟩ | ⟨s2, t2, h3, h4, hA2⟩
            · rw [h3, h4]; exact rfl
            · rw [h3, h4, hA2]
              exact relE_ok _ _ _ (markCost_app cfg nid s2 u)
        | nodeIf nid ic condp thensp elsesp pred =>
          have hsz1 : sizeOf condp < n := by simp at ha; omega
          have hsz2 : sizeOf thensp < n := by simp at ha; omega
          have hsz3 : sizeOf elsesp < n := by simp at ha; omega
          rw [visitA_nodeIf_eq cfg nid ic condp thensp elsesp pred s hig,
            visitA_nodeIf_eq cfg nid ic condp thensp elsesp pred _ hAux]
          rcases startVisitBase_app cfg nid ic s u
              (hu nid (by rw [astIds]; simp)) with
            ⟨e, hs1, hs2⟩ | ⟨sv, s1, hs1, hs2, -⟩
          · rw [hs1, hs2]; exact rfl
          · rw [hs1, hs2]
            simp only []
            rcases relE_cases _ _ _ (ihL condp hsz1 cfg s1 u
                (fun k hk => hu k (by rw [astIds]; simp [hk]))) with
              ⟨e, h1, h2⟩ | ⟨s2, t2, h1, h2, hA1⟩
            · rw [h1, h2]; exact rfl
            · rw [h1, h2, hA1]
              simp only []
              have hre : resetSt { s2 with user1 := s2.user1 ++ u } =
                  { resetSt s2 with user1 := (resetSt s2).user1 ++ u } := rfl
              rw [hre]
              rcases relE_cases _ _ _ (ihL thensp hsz2 cfg (resetSt s2) u
                  (fun k hk => hu k (by rw [astIds]; simp [hk]))) with
                ⟨e, h3, h4⟩ | ⟨s3, t3, h3, h4, hA2⟩
              · rw [h3, h4]; exact rfl
              · rw [h3, h4, hA2]
                simp only []
                have hre2 : resetSt { s3 with user1 := s3.user1 ++ u } =
                    { resetSt s3 with user1 := (resetSt s3).user1 ++ u } := rfl
                rw [hre2]
                rcases relE_cases _ _ _ (ihL elsesp hsz3 cfg (resetSt s3) u
                    (fun k hk => hu k (by rw [astIds]; simp [hk]))) with
                  ⟨e, h5, h6⟩ | ⟨s4, t4, h5, h6, hA3⟩
                · rw [h5, h6]; exact rfl
                · rw [h5, h6, hA3]
                  simp only []
                  exact relE_ok _ _ _ (endVisitBase_app2 cfg sv nid _ _ u
                    (ite_app_eq _ _ _ _ _ u rfl rfl))
        | cond nid ic condp thenp elsep =>
          have hsz1 : sizeOf condp < n := by simp at ha; omega
          have hsz2 : sizeOf thenp < n := by simp at ha; omega
          have hsz3 : sizeOf elsep < n := by simp at ha; omega
          rw [visitA_cond_eq cfg nid ic condp thenp elsep s hig,
            visitA_cond_eq cfg nid ic condp thenp elsep _ hAux]
          rcases startVisitBase_app cfg nid ic s u
              (hu nid (by rw [astIds]; simp)) with
            ⟨e, hs1, hs2⟩ | ⟨sv, s1, hs1, hs2, -⟩
          · rw [hs1, hs2]; exact rfl
          · rw [hs1, hs2]
            simp only []
            rcases relE_cases _ _ _ (ihL condp hsz1 cfg s1 u
                (fun k hk => hu k (by rw [astIds]; simp [hk]))) with
              ⟨e, h1, h2⟩ | ⟨s2, t2, h1, h2, hA1⟩
            · rw [h1, h2]; exact rfl
            · rw [h1, h2, hA1]
              simp only []
              have hre : resetSt { s2 with user1 := s2.user1 ++ u } =
                  { resetSt s2 with user1 := (resetSt s2).user1 ++ u } := rfl
              rw [hre]
              rcases relE_cases _ _ _ (ihL thenp hsz2 cfg (resetSt s2) u
                  (fun k hk => hu k (by rw [astIds]; simp [hk]))) with
                ⟨e, h3, h4⟩ | ⟨s3, t3, h3, h4, hA2⟩
              · rw [h3, h4]; exact rfl
              · rw [h3, h4, hA2]
                simp only []
                have hre2 : resetSt { s3 with user1 := s3.user1 ++ u } =
                    { resetSt s3 with user1 := (resetSt s3).user1 ++ u } := rfl
                rw [hre2]
                rcases relE_cases _ _ _ (ihL elsep hsz3 cfg (resetSt s3) u
                    (fun k hk => hu k (by rw [astIds]; simp [hk]))) with
                  ⟨e, h5, h6⟩ | ⟨s4, t4, h5, h6, hA3⟩
                · rw [h5, h6]; exact rfl
                · rw [h5, h6, hA3]
                  simp only []
                  exact relE_ok _ _ _ (endVisitBase_app2 cfg sv nid _ _ u
                    (ite_app_eq _ _ _ _ _ u rfl rfl))
        | cawait nid ic exprsp =>
          have hsz : sizeOf exprsp < n := by simp at ha; omega
          rw [visitA_cawait_eq cfg nid ic exprsp s hig, visitA_cawait_eq cfg nid ic exprsp _ hAux]
          rcases relE_cases _ _ _ (ihL exprsp hsz cfg s u
              (fun k hk => hu k (by rw [astIds]; simp [hk]))) with
            ⟨e, h1, h2⟩ | ⟨s1, t1, h1, h2, hA1⟩
          · rw [h1, h2]; exact rfl
          · rw [h1, h2, hA1]
            exact relE_ok _ _ _ rfl
        | fork nid ic stmtsp =>
          have hsz : sizeOf stmtsp < n := by simp at ha; omega
          rw [visitA_fork_eq cfg nid ic stmtsp s hig, visitA_fork_eq cfg nid ic stmtsp _ hAux]
          rcases startVisitBase_app cfg nid ic s u
              (hu nid (by rw [astIds]; simp)) with
            ⟨e, hs1, hs2⟩ | ⟨sv, s1, hs1, hs2, -⟩
          · rw [hs1, hs2]; exact rfl
          · rw [hs1, hs2]
            simp only []
            rcases relP_cases _ _ _ (ihF stmtsp hsz cfg s1.instrCount s1 u
                (fun k hk => hu k (by rw [astIds]; simp [hk]))) with
              ⟨e, h1, h2⟩ | ⟨v, s2, t2, h1, h2, hA2⟩
            · rw [h1, h2]; exact rfl
            · rw [h1, h2, hA2]
              exact relE_ok _ _ _ (endVisitBase_app2 cfg sv nid _ _ u rfl)
        | ccall nid ic argsp funcp =>
          have hsz1 : sizeOf argsp < n := by simp at ha; omega
          have hsz2 : sizeOf funcp < n := by simp at ha; omega
          rw [visitA_ccall_eq cfg nid ic argsp funcp s hig,
            visitA_ccall_eq cfg nid ic argsp funcp _ hAux]
          rcases startVisitBase_app cfg nid ic s u
              (hu nid (by rw [astIds]; simp)) with
            ⟨e, hs1, hs2⟩ | ⟨sv, s1, hs1, hs2, -⟩
          · rw [hs1, hs2]; exact rfl
          · rw [hs1, hs2]
            simp only []
            rcases relE_cases _ _ _ (ihL argsp hsz1 cfg s1 u
                (fun k hk => hu k (by rw [astIds]; simp [hk]))) with
              ⟨e, h1, h2⟩ | ⟨s2, t2, h1, h2, hA1⟩
            · rw [h1, h2]; exact rfl
            · rw [h1, h2, hA1]
              simp only []
              have htr : ({ { s2 with user1 := s2.user1 ++ u } with tracingCall := true } : St) =
                  { { s2 with tracingCall := true } with
                      user1 := ({ s2 with tracingCall := true } : St).user1 ++ u } := rfl
              rw [htr]
              rcases relE_cases _ _ _ (ihA funcp hsz2 cfg { s2 with tracingCall := true } u
                  (fun k hk => hu k (by rw [astIds]; simp [hk]))) with
                ⟨e, h3, h4⟩ | ⟨s3, t3, h3, h4, hA2⟩
              · rw [h3, h4]; exact rfl
              · rw [h3, h4, hA2]
                simp only []
                split
                · exact rfl
                · exact relE_ok _ _ _ (endVisitBase_app cfg sv nid s3 u)
        | cfunc nid ic stmtsp =>
          have hsz : sizeOf stmtsp < n := by simp at ha; omega
          by_cases hg : (s.tracingCall || (nid == cfg.startId)) = true
          · rw [visitA_cfunc_eq cfg nid ic stmtsp s (by simpa using hg) hig,
              visitA_cfunc_eq cfg nid ic stmtsp _ (by simpa using hg) hAux]
            have hcf : ({ { s with user1 := s.user1 ++ u } with
                tracingCall := false, inCFunc := true } : St) =
                { { s with tracingCall := false, inCFunc := true } with
                    user1 := ({ s with tracingCall := false, inCFunc := true } : St).user1 ++ u } :=
              rfl
            rw [hcf]
            rcases startVisitBase_app cfg nid ic
                { s with tracingCall := false, inCFunc := true } u
                (hu nid (by rw [astIds]; simp)) with
              ⟨e, hs1, hs2⟩ | ⟨sv, s2, hs1, hs2, -⟩
            · rw [hs1, hs2]; exact rfl
            · rw [hs1, hs2]
              simp only []
              rcases relE_cases _ _ _ (ihL stmtsp hsz cfg s2 u
                  (fun k hk => hu k (by rw [astIds]; simp [hk]))) with
                ⟨e, h1, h2⟩ | ⟨s3, t3, h1, h2, hA1⟩
              · rw [h1, h2]; exact rfl
              · rw [h1, h2, hA1]
                simp only []
                rw [endVisitBase_app cfg sv nid s3 u]
                exact relE_ok _ _ _ rfl
          · have hng : (!(s.tracingCall || (nid == cfg.startId))) = true := by
              simpa using hg
            have hng2 : (!(({ s with user1 := s.user1 ++ u } : St).tracingCall ||
                (nid == cfg.startId))) = true := hng
            rw [visitA]; rw [visitA]
            rw [if_pos hng, if_pos hng2]
            exact rfl
        | active nid ic stmtsp =>
          rw [visitA_active_eq, visitA_active_eq]
          by_cases hn : nid = cfg.startId
          · rw [if_pos hn, if_pos hn]
            exact relE_ok _ _ _ (markCost_app cfg nid s u)
          · rw [if_neg hn, if_neg hn]
            exact rfl
    · intro l hl cfg s u hu
      cases l with
      | nil =>
        rw [visitL_nil_eq, visitL_nil_eq]
        exact relE_ok _ _ _ rfl
      | cons a rest =>
        have hsz1 : sizeOf a < n := by simp at hl; omega
        have hsz2 : sizeOf rest < n := by simp at hl; omega
        rw [visitL_cons_eq, visitL_cons_eq]
        rcases relE_cases _ _ _ (ihA a hsz1 cfg s u
            (fun k hk => hu k (by rw [astIdsL]; simp [hk]))) with
          ⟨e, h1, h2⟩ | ⟨s1, t1, h1, h2, hA1⟩
        · rw [h1, h2]; exact rfl
        · rw [h1, h2, hA1]
          exact ihL rest hsz2 cfg s1 u (fun k hk => hu k (by rw [astIdsL]; simp [hk]))
    · intro l hl cfg tot s u hu
      cases l with
      | nil =>
        rw [forkStmts_nil_eq, forkStmts_nil_eq]
        exact ⟨rfl, rfl⟩
      | cons a rest =>
        have hsz1 : sizeOf a < n := by simp at hl; omega
        have hsz2 : sizeOf rest < n := by simp at hl; omega
        rw [forkStmts_cons_eq, forkStmts_cons_eq]
        have hre : resetSt { s with user1 := s.user1 ++ u } =
            { resetSt s with user1 := (resetSt s).user1 ++ u } := rfl
        rw [hre]
        rcases relE_cases _ _ _ (ihA a hsz1 cfg (resetSt s) u
            (fun k hk => hu k (by rw [astIdsL]; simp [hk]))) with
          ⟨e, h1, h2⟩ | ⟨s1, t1, h1, h2, hA1⟩
        · rw [h1, h2]; exact rfl
        · rw [h1, h2, hA1]
          simp only []
          exact ihF rest hsz2 cfg (add32 tot s1.instrCount) s1 u
            (fun k hk => hu k (by rw [astIdsL]; simp [hk]))

theorem lemRel : ∀ n : Nat,
    (∀ a : Ast, sizeOf a < n → ∀ (d o1 o2 : Bool) (sid : Nat) (s t : St), EqU2 s t →
      RelE EqU2 (visitA ⟨d, o1, sid⟩ a s) (visitA ⟨d, o2, sid⟩ a t)) ∧
    (∀ l : List Ast, sizeOf l < n → ∀ (d o1 o2 : Bool) (sid : Nat) (s t : St), EqU2 s t →
      RelE EqU2 (visitL ⟨d, o1, sid⟩ l s) (visitL ⟨d, o2, sid⟩ l t)) ∧
    (∀ l : List Ast, sizeOf l < n → ∀ (d o1 o2 : Bool) (sid : Nat) (tot : Nat) (s t : St),
      EqU2 s t →
      RelP EqU2 (forkStmts ⟨d, o1, sid⟩ l tot s) (forkStmts ⟨d, o2, sid⟩ l tot t)) := by
  intro n
  induction n with
  | zero =>
    exact ⟨fun a h => absurd h (Nat.not_lt_zero _), fun l h => absurd h (Nat.not_lt_zero _),
      fun l h => absurd h (Nat.not_lt_zero _)⟩
  | succ n ih =>
    obtain ⟨ihA, ihL, ihF⟩ := ih
    refine ⟨?_, ?_, ?_⟩
    · intro a ha d o1 o2 sid s t hEq
      obtain ⟨e1, e2, e3, e4, e5⟩ := hEq
      by_cases hig : s.ignoreRemaining = true
      case pos =>
        have higt : t.ignoreRemaining = true := by rw [← e2]; exact hig
        by_cases hsk : skipsIgnored a = true
        · rw [visitA_skip _ _ _ hig hsk, visitA_skip _ _ _ higt hsk]
          exact relE_ok _ _ _ ⟨e1, e2, e3, e4, e5⟩
        · cases a <;> simp [skipsIgnored] at hsk
          · -- cfunc in ignore mode: assertion failure either way, same one
            rename_i nid ic stmtsp
            rw [visitA]; rw [visitA]
            rw [show t.tracingCall = s.tracingCall from e3.symm]
            rw [show t.ignoreRemaining = s.ignoreRemaining from e2.symm]
            by_cases hg : (s.tracingCall || (nid == sid)) = true
            · have hng : ¬((!(s.tracingCall || (nid == sid))) = true) := by simp [hg]
              simp only [if_neg hng, if_pos hig]
              exact rfl
            · have hng : (!(s.tracingCall || (nid == sid))) = true := by simp_all
              simp only [if_pos hng]
              exact rfl
          · -- active in ignore mode
            rename_i nid ic stmtsp
            rw [visitA_active_eq, visitA_active_eq]
            by_cases hn : nid = sid
            · rw [if_pos hn, if_pos hn]
              exact relE_ok _ _ _ (markCost_rel _ _ _ _ _ ⟨e1, e2, e3, e4, e5⟩)
            · rw [if_neg hn, if_neg hn]
              exact rfl
      case neg =>
        rw [Bool.not_eq_true] at hig
        have higt : t.ignoreRemaining = false := by rw [← e2]; exact hig
        cases a with
        | node nid ic ch =>
          have hsz : sizeOf ch < n := by simp at ha; omega
          rw [visitA_node_eq _ nid ic ch s hig, visitA_node_eq _ nid ic ch t higt]
          rcases startVisitBase_rel d o1 o2 sid nid ic s t ⟨e1, e2, e3, e4, e5⟩ with
            ⟨e, hs1, hs2⟩ | ⟨sv, s1, t1, hs1, hs2, hEq1⟩
          · rw [hs1, hs2]; exact rfl
          · rw [hs1, hs2]
            simp only []
            rcases relE_cases _ _ _ (ihL ch hsz d o1 o2 sid s1 t1 hEq1) with
              ⟨e, hl1, hl2⟩ | ⟨s2, t2, hl1, hl2, hEq2⟩
            · rw [hl1, hl2]; exact rfl
            · rw [hl1, hl2]
              exact relE_ok _ _ _ (endVisitBase_rel _ _ sv nid s2 t2 hEq2)
        | nodeSel nid ic f bitp =>
          have hsz : sizeOf bitp < n := by simp at ha; omega
          rw [visitA_nodeSel_eq _ nid ic f bitp s hig, visitA_nodeSel_eq _ nid ic f bitp t higt]
          rcases startVisitBase_rel d o1 o2 sid nid ic s t ⟨e1, e2, e3, e4, e5⟩ with
            ⟨e, hs1, hs2⟩ | ⟨sv, s1, t1, hs1, hs2, hEq1⟩
          · rw [hs1, hs2]; exact rfl
          · rw [hs1, hs2]
            simp only []
            rcases relE_cases _ _ _ (ihL bitp hsz d o1 o2 sid s1 t1 hEq1) with
              ⟨e, hl1, hl2⟩ | ⟨s2, t2, hl1, hl2, hEq2⟩
            · rw [hl1, hl2]; exact rfl
            · rw [hl1, hl2]
              exact relE_ok _ _ _ (endVisitBase_rel _ _ sv nid s2 t2 hEq2)
        | sel nid ic f lsbp =>
          have hsz : sizeOf lsbp < n := by simp at ha; omega
          rw [visitA_sel_eq _ nid ic f lsbp s hig, visitA_sel_eq _ nid ic f lsbp t higt]
          rcases startVisitBase_rel d o1 o2 sid nid ic s t ⟨e1, e2, e3, e4, e5⟩ with
            ⟨e, hs1, hs2⟩ | ⟨sv, s1, t1, hs1, hs2, hEq1⟩
          · rw [hs1, hs2]; exact rfl
          · rw [hs1, hs2]
            simp only []
            rcases relE_cases _ _ _ (ihL lsbp hsz d o1 o2 sid s1 t1 hEq1) with
              ⟨e, hl1, hl2⟩ | ⟨s2, t2, hl1, hl2, hEq2⟩
            · rw [hl1, hl2]; exact rfl
            · rw [hl1, hl2]
              exact relE_ok _ _ _ (endVisitBase_rel _ _ sv nid s2 t2 hEq2)
        | concat nid ic lhsp rhsp =>
          have hsz1 : sizeOf lhsp < n := by simp at ha; omega
          have hsz2 : sizeOf rhsp < n := by simp at ha; omega
          rw [visitA_concat_eq _ nid ic lhsp rhsp s hig,
            visitA_concat_eq _ nid ic lhsp rhsp t higt]
          rcases relE_cases _ _ _ (ihA lhsp hsz1 d o1 o2 sid s t ⟨e1, e2, e3, e4, e5⟩) with
            ⟨e, h1, h2⟩ | ⟨s1, t1, h1, h2, hEq1⟩
          · rw [h1, h2]; exact rfl
          · rw [h1, h2]
            simp only []
            rcases relE_cases _ _ _ (ihA rhsp hsz2 d o1 o2 sid s1 t1 hEq1) with
              ⟨e, h3, h4⟩ | ⟨s2, t2, h3, h4, hEq2⟩
            · rw [h3, h4]; exact rfl
            · rw [h3, h4]
              exact relE_ok _ _ _ (markCost_rel _ _ nid s2 t2 hEq2)
        | nodeIf nid ic condp thensp elsesp pred =>
          have hsz1 : sizeOf condp < n := by simp at ha; omega
          have hsz2 : sizeOf thensp < n := by simp at ha; omega
          have hsz3 : sizeOf elsesp < n := by simp at ha; omega
          rw [visitA_nodeIf_eq _ nid ic condp thensp elsesp pred s hig,
            visitA_nodeIf_eq _ nid ic condp thensp elsesp pred t higt]
          rcases startVisitBase_rel d o1 o2 sid nid ic s t ⟨e1, e2, e3, e4, e5⟩ with
            ⟨e, hs1, hs2⟩ | ⟨sv, s1, t1, hs1, hs2, hEq1⟩
          · rw [hs1, hs2]; exact rfl
          · rw [hs1, hs2]
            simp only []
            rcases relE_cases _ _ _ (ihL condp hsz1 d o1 o2 sid s1 t1 hEq1) with
              ⟨e, h1, h2⟩ | ⟨s2, t2, h1, h2, hEq2⟩
            · rw [h1, h2]; exact rfl
            · rw [h1, h2]
              simp only []
              rcases relE_cases _ _ _ (ihL thensp hsz2 d o1 o2 sid (resetSt s2) (resetSt t2)
                  (resetSt_rel _ _ hEq2)) with
                ⟨e, h3, h4⟩ | ⟨s3, t3, h3, h4, hEq3⟩
              · rw [h3, h4]; exact rfl
              · rw [h3, h4]
                simp only []
                rcases relE_cases _ _ _ (ihL elsesp hsz3 d o1 o2 sid (resetSt s3) (resetSt t3)
                    (resetSt_rel _ _ hEq3)) with
                  ⟨e, h5, h6⟩ | ⟨s4, t4, h5, h6, hEq4⟩
                · rw [h5, h6]; exact rfl
                · rw [h5, h6]
                  simp only []
                  rw [show t2.instrCount = s2.instrCount from hEq2.1.symm,
                    show t3.instrCount = s3.instrCount from hEq3.1.symm,
                    show t4.instrCount = s4.instrCount from hEq4.1.symm]
                  obtain ⟨f1, f2, f3, f4, f5⟩ := hEq4
                  exact relE_ok _ _ _ (endVisitBase_rel _ _ sv nid _ _
                    (ite_eqU2 _ _ _ _ _ ⟨rfl, rfl, f3, f4, f5⟩ ⟨rfl, rfl, f3, f4, f5⟩))
        | cond nid ic condp thenp elsep =>
          have hsz1 : sizeOf condp < n := by simp at ha; omega
          have hsz2 : sizeOf thenp < n := by simp at ha; omega
          have hsz3 : sizeOf elsep < n := by simp at ha; omega
          rw [visitA_cond_eq _ nid ic condp thenp elsep s hig,
            visitA_cond_eq _ nid ic condp thenp elsep t higt]
          rcases startVisitBase_rel d o1 o2 sid nid ic s t ⟨e1, e2, e3, e4, e5⟩ with
            ⟨e, hs1, hs2⟩ | ⟨sv, s1, t1, hs1, hs2, hEq1⟩
          · rw [hs1, hs2]; exact rfl
          · rw [hs1, hs2]
            simp only []
            rcases relE_cases _ _ _ (ihL condp hsz1 d o1 o2 sid s1 t1 hEq1) with
              ⟨e, h1, h2⟩ | ⟨s2, t2, h1, h2, hEq2⟩
            · rw [h1, h2]; exact rfl
            · rw [h1, h2]
              simp only []
              rcases relE_cases _ _ _ (ihL thenp hsz2 d o1 o2 sid (resetSt s2) (resetSt t2)
                  (resetSt_rel _ _ hEq2)) with
                ⟨e, h3, h4⟩ | ⟨s3, t3, h3, h4, hEq3⟩
              · rw [h3, h4]; exact rfl
              · rw [h3, h4]
                simp only []
                rcases relE_cases _ _ _ (ihL elsep hsz3 d o1 o2 sid (resetSt s3) (resetSt t3)
                    (resetSt_rel _ _ hEq3)) with
                  ⟨e, h5, h6⟩ | ⟨s4, t4, h5, h6, hEq4⟩
                · rw [h5, h6]; exact rfl
                · rw [h5, h6]
                  simp only []
                  rw [show t2.instrCount = s2.instrCount from hEq2.1.symm,
                    show t3.instrCount = s3.instrCount from hEq3.1.symm,
                    show t4.instrCount = s4.instrCount from hEq4.1.symm]
                  obtain ⟨f1, f2, f3, f4, f5⟩ := hEq4
                  exact relE_ok _ _ _ (endVisitBase_rel _ _ sv nid _ _
                    (ite_eqU2 _ _ _ _ _ ⟨rfl, rfl, f3, f4, f5⟩ ⟨rfl, rfl, f3, f4, f5⟩))
        | cawait nid ic exprsp =>
          have hsz : sizeOf exprsp < n := by simp at ha; omega
          rw [visitA_cawait_eq _ nid ic exprsp s hig, visitA_cawait_eq _ nid ic exprsp t higt]
          rcases relE_cases _ _ _ (ihL exprsp hsz d o1 o2 sid s t ⟨e1, e2, e3, e4, e5⟩) with
            ⟨e, h1, h2⟩ | ⟨s1, t1, h1, h2, hEq1⟩
          · rw [h1, h2]; exact rfl
          · rw [h1, h2]
            obtain ⟨f1, f2, f3, f4, f5⟩ := hEq1
            exact relE_ok _ _ _ ⟨f1, rfl, f3, f4, f5⟩
        | fork nid ic stmtsp =>
          have hsz : sizeOf stmtsp < n := by simp at ha; omega
          rw [visitA_fork_eq _ nid ic stmtsp s hig, visitA_fork_eq _ nid ic stmtsp t higt]
          rcases startVisitBase_rel d o1 o2 sid nid ic s t ⟨e1, e2, e3, e4, e5⟩ with
            ⟨e, hs1, hs2⟩ | ⟨sv, s1, t1, hs1, hs2, hEq1⟩
          · rw [hs1, hs2]; exact rfl
          · rw [hs1, hs2]
            simp only []
            rw [show t1.instrCount = s1.instrCount from hEq1.1.symm]
            rcases relP_cases _ _ _ (ihF stmtsp hsz d o1 o2 sid s1.instrCount s1 t1 hEq1) with
              ⟨e, h1, h2⟩ | ⟨v, s2, t2, h1, h2, hEq2⟩
            · rw [h1, h2]; exact rfl
            · rw [h1, h2]
              obtain ⟨f1, f2, f3, f4, f5⟩ := hEq2
              exact relE_ok _ _ _
                (endVisitBase_rel _ _ sv nid _ _ ⟨rfl, rfl, f3, f4, f5⟩)
        | ccall nid ic argsp funcp =>
          have hsz1 : sizeOf argsp < n := by simp at ha; omega
          have hsz2 : sizeOf funcp < n := by simp at ha; omega
          rw [visitA_ccall_eq _ nid ic argsp funcp s hig,
            visitA_ccall_eq _ nid ic argsp funcp t higt]
          rcases startVisitBase_rel d o1 o2 sid nid ic s t ⟨e1, e2, e3, e4, e5⟩ with
            ⟨e, hs1, hs2⟩ | ⟨sv, s1, t1, hs1, hs2, hEq1⟩
          · rw [hs1, hs2]; exact rfl
          · rw [hs1, hs2]
            simp only []
            rcases relE_cases _ _ _ (ihL argsp hsz1 d o1 o2 sid s1 t1 hEq1) with
              ⟨e, h1, h2⟩ | ⟨s2, t2, h1, h2, hEq2⟩
            · rw [h1, h2]; exact rfl
            · rw [h1, h2]
              simp only []
              obtain ⟨g1, g2, g3, g4, g5⟩ := hEq2
              rcases relE_cases _ _ _ (ihA funcp hsz2 d o1 o2 sid
                  { s2 with tracingCall := true } { t2 with tracingCall := true }
                  ⟨g1, g2, rfl, g4, g5⟩) with
                ⟨e, h3, h4⟩ | ⟨s3, t3, h3, h4, hEq3⟩
              · rw [h3, h4]; exact rfl
              · rw [h3, h4]
                simp only []
                rw [show t3.tracingCall = s3.tracingCall from hEq3.2.2.1.symm]
                split
                · exact rfl
                · exact relE_ok _ _ _ (endVisitBase_rel _ _ sv nid s3 t3 hEq3)
        | cfunc nid ic stmtsp =>
          have hsz : sizeOf stmtsp < n := by simp at ha; omega
          by_cases hg : (s.tracingCall || (nid == sid)) = true
          · have hgt : (t.tracingCall || (nid == sid)) = true := by rw [← e3]; exact hg
            rw [visitA_cfunc_eq _ nid ic stmtsp s (by simpa using hg) hig,
              visitA_cfunc_eq _ nid ic stmtsp t (by simpa using hgt) higt]
            rcases startVisitBase_rel d o1 o2 sid nid ic
                { s with tracingCall := false, inCFunc := true }
                { t with tracingCall := false, inCFunc := true }
                ⟨e1, e2, rfl, rfl, e5⟩ with
              ⟨e, hs1, hs2⟩ | ⟨sv, s2, t2, hs1, hs2, hEq1⟩
            · rw [hs1, hs2]; exact rfl
            · rw [hs1, hs2]
              simp only []
              rcases relE_cases _ _ _ (ihL stmtsp hsz d o1 o2 sid s2 t2 hEq1) with
                ⟨e, h1, h2⟩ | ⟨s3, t3, h1, h2, hEq2⟩
              · rw [h1, h2]; exact rfl
              · rw [h1, h2]
                obtain ⟨f1, f2, f3, f4, f5⟩ := endVisitBase_rel (Cfg.mk d o1 sid)
                  (Cfg.mk d o2 sid) sv nid s3 t3 hEq2
                exact relE_ok _ _ _ ⟨f1, rfl, f3, e4, f5⟩
          · rw [visitA]; rw [visitA]
            rw [show t.tracingCall = s.tracingCall from e3.symm]
            have hng : (!(s.tracingCall || (nid == sid))) = true := by simp_all
            simp only [if_pos hng]
            exact rfl
        | active nid ic stmtsp =>
          rw [visitA_active_eq, visitA_active_eq]
          by_cases hn : nid = sid
          · rw [if_pos hn, if_pos hn]
            exact relE_ok _ _ _ (markCost_rel _ _ _ _ _ ⟨e1, e2, e3, e4, e5⟩)
          · rw [if_neg hn, if_neg hn]
            exact rfl
    · intro l hl d o1 o2 sid s t hEq
      cases l with
      | nil =>
        rw [visitL_nil_eq, visitL_nil_eq]
        exact relE_ok _ _ _ hEq
      | cons a rest =>
        have hsz1 : sizeOf a < n := by simp at hl; omega
        have hsz2 : sizeOf rest < n := by simp at hl; omega
        rw [visitL_cons_eq, visitL_cons_eq]
        rcases relE_cases _ _ _ (ihA a hsz1 d o1 o2 sid s t hEq) with
          ⟨e, h1, h2⟩ | ⟨s1, t1, h1, h2, hEq1⟩
        · rw [h1, h2]; exact rfl
        · rw [h1, h2]
          exact ihL rest hsz2 d o1 o2 sid s1 t1 hEq1
    · intro l hl d o1 o2 sid tot s t hEq
      cases l with
      | nil =>
        rw [forkStmts_nil_eq, forkStmts_nil_eq]
        exact ⟨rfl, hEq⟩
      | cons a rest =>
        have hsz1 : sizeOf a < n := by simp at hl; omega
        have hsz2 : sizeOf rest < n := by simp at hl; omega
        rw [forkStmts_cons_eq, forkStmts_cons_eq]
        rcases relE_cases _ _ _ (ihA a hsz1 d o1 o2 sid (resetSt s) (resetSt t)
            (resetSt_rel _ _ hEq)) with
          ⟨e, h1, h2⟩ | ⟨s1, t1, h1, h2, hEq1⟩
        · rw [h1, h2]; exact rfl
        · rw [h1, h2]
          simp only []
          rw [show t1.instrCount = s1.instrCount from hEq1.1.symm]
          exact ihF rest hsz2 d o1 o2 sid (add32 tot s1.instrCount) s1 t1 hEq1

theorem lemInv : ∀ n : Nat,
    (∀ a : Ast, sizeOf a < n → ∀ (cfg : Cfg) (st t : St), visitA cfg a st = .ok t →
      InvOk cfg.assertNoDups (astIds a) st t) ∧
    (∀ l : List Ast, sizeOf l < n → ∀ (cfg : Cfg) (st t : St), visitL cfg l st = .ok t →
      InvOk cfg.assertNoDups (astIdsL l) st t) ∧
    (∀ l : List Ast, sizeOf l < n → ∀ (cfg : Cfg) (tot : Nat) (st : St) (p : Nat × St),
      forkStmts cfg l tot st = .ok p → InvOk cfg.assertNoDups (astIdsL l) st p.2) := by
  intro n
  induction n with
  | zero =>
    exact ⟨fun a h => absurd h (Nat.not_lt_zero _), fun l h => absurd h (Nat.not_lt_zero _),
      fun l h => absurd h (Nat.not_lt_zero _)⟩
  | succ n ih =>
    obtain ⟨ihA, ihL, ihF⟩ := ih
    refine ⟨?_, ?_, ?_⟩
    · intro a ha cfg st t hv
      by_cases hig : st.ignoreRemaining = true
      case pos =>
        have hsk : skipsIgnored a = true ∨ (skipsIgnored a = false) := by
          cases h : skipsIgnored a <;> simp
        rcases hsk with hsk | hsk
        · rw [visitA_skip cfg a st hig hsk] at hv
          cases hv
          exact invOk_refl _ _ _
        · cases a <;> simp [skipsIgnored] at hsk
          · -- cfunc, ignoring: both assertion orders end in an error
            rename_i nid ic stmtsp
            rw [visitA] at hv
            split at hv
            · exact absurd hv (by simp)
            · exact absurd hv (by simp)
          · -- active: no children are visited
            rename_i nid ic stmtsp
            rw [visitA_active_eq] at hv
            split at hv
            · cases hv
              exact invOk_congr _ _ _ _ _ (invOk_refl _ _ _) (markCost_user1 _ _ _)
                (markCost_tracingCall _ _ _) (markCost_inCFunc _ _ _)
            · exact absurd hv (by simp)
      case neg =>
        rw [Bool.not_eq_true] at hig
        cases a with
        | node nid ic ch =>
          have hsz : sizeOf ch < n := by simp at ha; omega
          rw [visitA_node_eq cfg nid ic ch st hig] at hv
          cases hs : startVisitBase cfg nid ic st with
          | error e => rw [hs] at hv; exact absurd hv (by simp)
          | ok p =>
            obtain ⟨saved, st1⟩ := p
            rw [hs] at hv
            simp only [] at hv
            cases hl : visitL cfg ch st1 with
            | error e => rw [hl] at hv; exact absurd hv (by simp)
            | ok st2 =>
              rw [hl] at hv
              simp only [Except.ok.injEq] at hv
              subst hv
              have i1 := invOk_start cfg nid ic st saved st1 (astIds (.node nid ic ch)) hs
                (by rw [astIds]; simp)
              have i2 := invOk_mono _ _ (astIds (.node nid ic ch)) _ _
                (ihL ch hsz cfg st1 st2 hl) (by intro x hx; rw [astIds]; simp [hx])
              exact invOk_congr _ _ _ _ _ (invOk_trans _ _ _ _ _ i1 i2)
                (endVisitBase_user1 _ _ _ _) (endVisitBase_tracingCall _ _ _ _)
                (endVisitBase_inCFunc _ _ _ _)
        | nodeSel nid ic f bitp =>
          have hsz : sizeOf bitp < n := by simp at ha; omega
          rw [visitA_nodeSel_eq cfg nid ic f bitp st hig] at hv
          cases hs : startVisitBase cfg nid ic st with
          | error e => rw [hs] at hv; exact absurd hv (by simp)
          | ok p =>
            obtain ⟨saved, st1⟩ := p
            rw [hs] at hv
            simp only [] at hv
            cases hl : visitL cfg bitp st1 with
            | error e => rw [hl] at hv; exact absurd hv (by simp)
            | ok st2 =>
              rw [hl] at hv
              simp only [Except.ok.injEq] at hv
              subst hv
              have i1 := invOk_start cfg nid ic st saved st1 (astIds (.nodeSel nid ic f bitp))
                hs (by rw [astIds]; simp)
              have i2 := invOk_mono _ _ (astIds (.nodeSel nid ic f bitp)) _ _
                (ihL bitp hsz cfg st1 st2 hl) (by intro x hx; rw [astIds]; simp [hx])
              exact invOk_congr _ _ _ _ _ (invOk_trans _ _ _ _ _ i1 i2)
                (endVisitBase_user1 _ _ _ _) (endVisitBase_tracingCall _ _ _ _)
                (endVisitBase_inCFunc _ _ _ _)
        | sel nid ic f lsbp =>
          have hsz : sizeOf lsbp < n := by simp at ha; omega
          rw [visitA_sel_eq cfg nid ic f lsbp st hig] at hv
          cases hs : startVisitBase cfg nid ic st with
          | error e => rw [hs] at hv; exact absurd hv (by simp)
          | ok p =>
            obtain ⟨saved, st1⟩ := p
            rw [hs] at hv
            simp only [] at hv
            cases hl : visitL cfg lsbp st1 with
            | error e => rw [hl] at hv; exact absurd hv (by simp)
            | ok st2 =>
              rw [hl] at hv
              simp only [Except.ok.injEq] at hv
              subst hv
              have i1 := invOk_start cfg nid ic st saved st1 (astIds (.sel nid ic f lsbp))
                hs (by rw [astIds]; simp)
              have i2 := invOk_mono _ _ (astIds (.sel nid ic f lsbp)) _ _
                (ihL lsbp hsz cfg st1 st2 hl) (by intro x hx; rw [astIds]; simp [hx])
              exact invOk_congr _ _ _ _ _ (invOk_trans _ _ _ _ _ i1 i2)
                (endVisitBase_user1 _ _ _ _) (endVisitBase_tracingCall _ _ _ _)
                (endVisitBase_inCFunc _ _ _ _)
        | concat nid ic lhsp rhsp =>
          have hsz1 : sizeOf lhsp < n := by simp at ha; omega
          have hsz2 : sizeOf rhsp < n := by simp at ha; omega
          rw [visitA_concat_eq cfg nid ic lhsp rhsp st hig] at hv
          cases h1 : visitA cfg lhsp st with
          | error e => rw [h1] at hv; exact absurd hv (by simp)
          | ok st1 =>
            rw [h1] at hv
            simp only [] at hv
            cases h2 : visitA cfg rhsp st1 with
            | error e => rw [h2] at hv; exact absurd hv (by simp)
            | ok st2 =>
              rw [h2] at hv
              simp only [Except.ok.injEq] at hv
              subst hv
              have i1 := invOk_mono _ _ (astIds (.concat nid ic lhsp rhsp)) _ _
                (ihA lhsp hsz1 cfg st st1 h1) (by intro x hx; rw [astIds]; simp [hx])
              have i2 := invOk_mono _ _ (astIds (.concat nid ic lhsp rhsp)) _ _
                (ihA rhsp hsz2 cfg st1 st2 h2) (by intro x hx; rw [astIds]; simp [hx])
              exact invOk_congr _ _ _ _ _ (invOk_trans _ _ _ _ _ i1 i2)
                (markCost_user1 _ _ _) (markCost_tracingCall _ _ _) (markCost_inCFunc _ _ _)
        | nodeIf nid ic condp thensp elsesp pred =>
          have hsz1 : sizeOf condp < n := by simp at ha; omega
          have hsz2 : sizeOf thensp < n := by simp at ha; omega
          have hsz3 : sizeOf elsesp < n := by simp at ha; omega
          rw [visitA_nodeIf_eq cfg nid ic condp thensp elsesp pred st hig] at hv
          cases hs : startVisitBase cfg nid ic st with
          | error e => rw [hs] at hv; exact absurd hv (by simp)
          | ok p =>
            obtain ⟨saved, st1⟩ := p
            rw [hs] at hv
            simp only [] at hv
            cases h1 : visitL cfg condp st1 with
            | error e => rw [h1] at hv; exact absurd hv (by simp)
            | ok st2 =>
              rw [h1] at hv
              simp only [] at hv
              cases h2 : visitL cfg thensp (resetSt st2) with
              | error e => rw [h2] at hv; exact absurd hv (by simp)
              | ok st3 =>
                rw [h2] at hv
                simp only [] at hv
                cases h3 : visitL cfg elsesp (resetSt st3) with
                | error e => rw [h3] at hv; exact absurd hv (by simp)
                | ok st4 =>
                  rw [h3] at hv
                  simp only [Except.ok.injEq] at hv
                  subst hv
                  have i1 := invOk_start cfg nid ic st saved st1
                    (astIds (.nodeIf nid ic condp thensp elsesp pred)) hs (by rw [astIds]; simp)
                  have i2 := invOk_mono _ _ (astIds (.nodeIf nid ic condp thensp elsesp pred))
                    _ _ (ihL condp hsz1 cfg st1 st2 h1)
                    (by intro x hx; rw [astIds]; simp [hx])
                  have i3 := invOk_congr_left _ _ (resetSt st2) st2 _
                    (invOk_mono _ _ (astIds (.nodeIf nid ic condp thensp elsesp pred)) _ _
                      (ihL thensp hsz2 cfg (resetSt st2) st3 h2)
                      (by intro x hx; rw [astIds]; simp [hx])) rfl rfl rfl
                  have i4 := invOk_congr_left _ _ (resetSt st3) st3 _
                    (invOk_mono _ _ (astIds (.nodeIf nid ic condp thensp elsesp pred)) _ _
                      (ihL elsesp hsz3 cfg (resetSt st3) st4 h3)
                      (by intro x hx; rw [astIds]; simp [hx])) rfl rfl rfl
                  have chain := invOk_trans _ _ _ _ _ (invOk_trans _ _ _ _ _
                    (invOk_trans _ _ _ _ _ i1 i2) i3) i4
                  refine invOk_congr _ _ _ _ _ chain ?_ ?_ ?_
                  · rw [endVisitBase_user1]; exact ite_user1 _ _ _ _ rfl rfl
                  · rw [endVisitBase_tracingCall]; exact ite_tracingCall _ _ _ _ rfl rfl
                  · rw [endVisitBase_inCFunc]; exact ite_inCFunc _ _ _ _ rfl rfl
        | cond nid ic condp thenp elsep =>
          have hsz1 : sizeOf condp < n := by simp at ha; omega
          have hsz2 : sizeOf thenp < n := by simp at ha; omega
          have hsz3 : sizeOf elsep < n := by simp at ha; omega
          rw [visitA_cond_eq cfg nid ic condp thenp elsep st hig] at hv
          cases hs : startVisitBase cfg nid ic st with
          | error e => rw [hs] at hv; exact absurd hv (by simp)
          | ok p =>
            obtain ⟨saved, st1⟩ := p
            rw [hs] at hv
            simp only [] at hv
            cases h1 : visitL cfg condp st1 with
            | error e => rw [h1] at hv; exact absurd hv (by simp)
            | ok st2 =>
              rw [h1] at hv
              simp only [] at hv
              cases h2 : visitL cfg thenp (resetSt st2) with
              | error e => rw [h2] at hv; exact absurd hv (by simp)
              | ok st3 =>
                rw [h2] at hv
                simp only [] at hv
                cases h3 : visitL cfg elsep (resetSt st3) with
                | error e => rw [h3] at hv; exact absurd hv (by simp)
                | ok st4 =>
                  rw [h3] at hv
                  simp only [Except.ok.injEq] at hv
                  subst hv
                  have i1 := invOk_start cfg nid ic st saved st1
                    (astIds (.cond nid ic condp thenp elsep)) hs (by rw [astIds]; simp)
                  have i2 := invOk_mono _ _ (astIds (.cond nid ic condp thenp elsep))
                    _ _ (ihL condp hsz1 cfg st1 st2 h1)
                    (by intro x hx; rw [astIds]; simp [hx])
                  have i3 := invOk_congr_left _ _ (resetSt st2) st2 _
                    (invOk_mono _ _ (astIds (.cond nid ic condp thenp elsep)) _ _
                      (ihL thenp hsz2 cfg (resetSt st2) st3 h2)
                      (by intro x hx; rw [astIds]; simp [hx])) rfl rfl rfl
                  have i4 := invOk_congr_left _ _ (resetSt st3) st3 _
                    (invOk_mono _ _ (astIds (.cond nid ic condp thenp elsep)) _ _
                      (ihL elsep hsz3 cfg (resetSt st3) st4 h3)
                      (by intro x hx; rw [astIds]; simp [hx])) rfl rfl rfl
                  have chain := invOk_trans _ _ _ _ _ (invOk_trans _ _ _ _ _
                    (invOk_trans _ _ _ _ _ i1 i2) i3) i4
                  refine invOk_congr _ _ _ _ _ chain ?_ ?_ ?_
                  · rw [endVisitBase_user1]; exact ite_user1 _ _ _ _ rfl rfl
                  · rw [endVisitBase_tracingCall]; exact ite_tracingCall _ _ _ _ rfl rfl
                  · rw [endVisitBase_inCFunc]; exact ite_inCFunc _ _ _ _ rfl rfl
        | cawait nid ic exprsp =>
          have hsz : sizeOf exprsp < n := by simp at ha; omega
          rw [visitA_cawait_eq cfg nid ic exprsp st hig] at hv
          cases h1 : visitL cfg exprsp st with
          | error e => rw [h1] at hv; exact absurd hv (by simp)
          | ok st1 =>
            rw [h1] at hv
            simp only [Except.ok.injEq] at hv
            subst hv
            have i1 := invOk_mono _ _ (astIds (.cawait nid ic exprsp)) _ _
              (ihL exprsp hsz cfg st st1 h1) (by intro x hx; rw [astIds]; simp [hx])
            exact invOk_congr _ _ _ _ _ i1 rfl rfl rfl
        | fork nid ic stmtsp =>
          have hsz : sizeOf stmtsp < n := by simp at ha; omega
          rw [visitA_fork_eq cfg nid ic stmtsp st hig] at hv
          cases hs : startVisitBase cfg nid ic st with
          | error e => rw [hs] at hv; exact absurd hv (by simp)
          | ok p =>
            obtain ⟨saved, st1⟩ := p
            rw [hs] at hv
            simp only [] at hv
            cases hf : forkStmts cfg stmtsp st1.instrCount st1 with
            | error e => rw [hf] at hv; exact absurd hv (by simp)
            | ok q =>
              obtain ⟨total, st2⟩ := q
              rw [hf] at hv
              simp only [Except.ok.injEq] at hv
              subst hv
              have i1 := invOk_start cfg nid ic st saved st1 (astIds (.fork nid ic stmtsp))
                hs (by rw [astIds]; simp)
              have i2 := invOk_mono _ _ (astIds (.fork nid ic stmtsp)) _ _
                (ihF stmtsp hsz cfg st1.instrCount st1 (total, st2) hf)
                (by intro x hx; rw [astIds]; simp [hx])
              exact invOk_congr _ _ _ _ _ (invOk_trans _ _ _ _ _ i1 i2)
                (by rw [endVisitBase_user1]) (by rw [endVisitBase_tracingCall])
                (by rw [endVisitBase_inCFunc])
        | ccall nid ic argsp funcp =>
          have hsz1 : sizeOf argsp < n := by simp at ha; omega
          have hsz2 : sizeOf funcp < n := by simp at ha; omega
          rw [visitA_ccall_eq cfg nid ic argsp funcp st hig] at hv
          cases hs : startVisitBase cfg nid ic st with
          | error e => rw [hs] at hv; exact absurd hv (by simp)
          | ok p =>
            obtain ⟨saved, st1⟩ := p
            rw [hs] at hv
            simp only [] at hv
            cases h1 : visitL cfg argsp st1 with
            | error e => rw [h1] at hv; exact absurd hv (by simp)
            | ok st2 =>
              rw [h1] at hv
              simp only [] at hv
              cases h2 : visitA cfg funcp { st2 with tracingCall := true } with
              | error e => rw [h2] at hv; exact absurd hv (by simp)
              | ok st3 =>
                rw [h2] at hv
                simp only [] at hv
                by_cases htc : st3.tracingCall = true
                · rw [if_pos htc] at hv
                  exact absurd hv (by simp)
                · rw [if_neg htc] at hv
                  simp only [Except.ok.injEq] at hv
                  subst hv
                  rw [Bool.not_eq_true] at htc
                  have i1 := invOk_start cfg nid ic st saved st1
                    (astIds (.ccall nid ic argsp funcp)) hs (by rw [astIds]; simp)
                  have i2 := invOk_mono _ _ (astIds (.ccall nid ic argsp funcp)) _ _
                    (ihL argsp hsz1 cfg st1 st2 h1) (by intro x hx; rw [astIds]; simp [hx])
                  have i3 := invOk_setTracing _ _ st2 st3
                    (invOk_mono _ _ (astIds (.ccall nid ic argsp funcp)) _ _
                      (ihA funcp hsz2 cfg { st2 with tracingCall := true } st3 h2)
                      (by intro x hx; rw [astIds]; simp [hx])) htc
                  exact invOk_congr _ _ _ _ _ (invOk_trans _ _ _ _ _
                    (invOk_trans _ _ _ _ _ i1 i2) i3)
                    (by rw [endVisitBase_user1]) (by rw [endVisitBase_tracingCall])
                    (by rw [endVisitBase_inCFunc])
        | cfunc nid ic stmtsp =>
          have hsz : sizeOf stmtsp < n := by simp at ha; omega
          by_cases hok : (st.tracingCall || nid == cfg.startId) = true
          · rw [visitA_cfunc_eq cfg nid ic stmtsp st hok hig] at hv
            cases hs : startVisitBase cfg nid ic
                { st with tracingCall := false, inCFunc := true } with
            | error e => rw [hs] at hv; exact absurd hv (by simp)
            | ok p =>
              obtain ⟨saved, st2⟩ := p
              rw [hs] at hv
              simp only [] at hv
              cases hl : visitL cfg stmtsp st2 with
              | error e => rw [hl] at hv; exact absurd hv (by simp)
              | ok st3 =>
                rw [hl] at hv
                simp only [Except.ok.injEq] at hv
                subst hv
                have i1 := invOk_start cfg nid ic
                  { st with tracingCall := false, inCFunc := true } saved st2
                  (astIds (.cfunc nid ic stmtsp)) hs (by rw [astIds]; simp)
                have i2 := invOk_mono _ _ (astIds (.cfunc nid ic stmtsp)) _ _
                  (ihL stmtsp hsz cfg st2 st3 hl) (by intro x hx; rw [astIds]; simp [hx])
                have chain := invOk_trans _ _ _ _ _ i1 i2
                obtain ⟨a1, a2, a3, w, hw, hm⟩ := chain
                refine ⟨rfl, fun _ => ?_, fun hd => ?_, w, ?_, hm⟩
                · show (endVisitBase cfg saved nid st3).tracingCall = false
                  rw [endVisitBase_tracingCall]
                  exact a2 rfl
                · show (endVisitBase cfg saved nid st3).user1 = st.user1
                  rw [endVisitBase_user1]
                  exact a3 hd
                · show (endVisitBase cfg saved nid st3).user1 = w ++ st.user1
                  rw [endVisitBase_user1]
                  exact hw
          · rw [visitA] at hv
            rw [if_pos (by simp_all)] at hv
            exact absurd hv (by simp)
        | active nid ic stmtsp =>
          rw [visitA_active_eq] at hv
          split at hv
          · cases hv
            exact invOk_congr _ _ _ _ _ (invOk_refl _ _ _) (markCost_user1 _ _ _)
              (markCost_tracingCall _ _ _) (markCost_inCFunc _ _ _)
          · exact absurd hv (by simp)
    · intro l hl cfg st t hv
      cases l with
      | nil =>
        rw [visitL_nil_eq] at hv
        cases hv
        exact invOk_refl _ _ _
      | cons a rest =>
        have hsz1 : sizeOf a < n := by simp at hl; omega
        have hsz2 : sizeOf rest < n := by simp at hl; omega
        rw [visitL_cons_eq] at hv
        cases h1 : visitA cfg a st with
        | error e => rw [h1] at hv; exact absurd hv (by simp)
        | ok st1 =>
          rw [h1] at hv
          have i1 := invOk_mono _ _ (astIdsL (a :: rest)) _ _ (ihA a hsz1 cfg st st1 h1)
            (by intro x hx; rw [astIdsL]; simp [hx])
          have i2 := invOk_mono _ _ (astIdsL (a :: rest)) _ _ (ihL rest hsz2 cfg st1 t hv)
            (by intro x hx; rw [astIdsL]; simp [hx])
          exact invOk_trans _ _ _ _ _ i1 i2
    · intro l hl cfg tot st p hv
      cases l with
      | nil =>
        rw [forkStmts_nil_eq] at hv
        cases hv
        exact invOk_refl _ _ _
      | cons s rest =>
        have hsz1 : sizeOf s < n := by simp at hl; omega
        have hsz2 : sizeOf rest < n := by simp at hl; omega
        rw [forkStmts_cons_eq] at hv
        cases h1 : visitA cfg s (resetSt st) with
        | error e => rw [h1] at hv; exact absurd hv (by simp)
        | ok st1 =>
          rw [h1] at hv
          have i1 := invOk_congr_left _ _ (resetSt st) st _
            (invOk_mono _ _ (astIdsL (s :: rest)) _ _ (ihA s hsz1 cfg (resetSt st) st1 h1)
              (by intro x hx; rw [astIdsL]; simp [hx])) rfl rfl rfl
          have i2 := invOk_mono _ _ (astIdsL (s :: rest)) _ _
            (ihF rest hsz2 cfg (add32 tot st1.instrCount) st1 p hv)
            (by intro x hx; rw [astIdsL]; simp [hx])
          exact invOk_trans _ _ _ _ _ i1 i2

theorem dumpLine_specLine (u2 : List (Nat × Nat)) (d : Nat) (a : Ast) :
    dumpLine d (stampOf u2 a - 1) a = specLine u2 (d, a) := by
  simp [dumpLine, specLine, indentStr, String.append_assoc]

theorem dumpEq : ∀ n : Nat,
    (∀ a : Ast, sizeOf a < n → ∀ (u2 : List (Nat × Nat)) (d : Nat),
      dumpA u2 d a = (preStamped u2 d a).map (specLine u2)) ∧
    (∀ l : List Ast, sizeOf l < n → ∀ (u2 : List (Nat × Nat)) (d : Nat),
      dumpL u2 d l = (preStampedL u2 d l).map (specLine u2)) := by
  intro n
  induction n with
  | zero =>
    exact ⟨fun a h => absurd h (Nat.not_lt_zero _), fun l h => absurd h (Nat.not_lt_zero _)⟩
  | succ n ih =>
    obtain ⟨ihA, ihL⟩ := ih
    refine ⟨?_, ?_⟩
    · intro a ha u2 d
      rw [dumpA.eq_def, preStamped.eq_def]
      by_cases hst : stampOf u2 a = 0
      case pos => simp [hst]
      case neg =>
        rw [if_neg hst, if_neg hst]
        rw [List.map_cons]
        rw [dumpLine_specLine u2 (d + 1) a]
        cases a with
        | node nid ic ch =>
          have hsz : sizeOf ch < n := by simp at ha; omega
          simp only [List.cons.injEq, true_and]
          rw [ihL ch hsz u2 (d + 1)]
        | nodeSel nid ic f bitp =>
          have hsz1 : sizeOf f < n := by simp at ha; omega
          have hsz2 : sizeOf bitp < n := by simp at ha; omega
          simp only [List.cons.injEq, true_and]
          rw [List.map_append, ihA f hsz1 u2 (d + 1), ihL bitp hsz2 u2 (d + 1)]
        | sel nid ic f lsbp =>
          have hsz1 : sizeOf f < n := by simp at ha; omega
          have hsz2 : sizeOf lsbp < n := by simp at ha; omega
          simp only [List.cons.injEq, true_and]
          rw [List.map_append, ihA f hsz1 u2 (d + 1), ihL lsbp hsz2 u2 (d + 1)]
        | concat nid ic lhsp rhsp =>
          have hsz1 : sizeOf lhsp < n := by simp at ha; omega
          have hsz2 : sizeOf rhsp < n := by simp at ha; omega
          simp only [List.cons.injEq, true_and]
          rw [List.map_append, ihA lhsp hsz1 u2 (d + 1), ihA rhsp hsz2 u2 (d + 1)]
        | nodeIf nid ic condp thensp elsesp pred =>
          have hsz1 : sizeOf condp < n := by simp at ha; omega
          have hsz2 : sizeOf thensp < n := by simp at ha; omega
          have hsz3 : sizeOf elsesp < n := by simp at ha; omega
          simp only [List.cons.injEq, true_and]
          rw [List.map_append, List.map_append, ihL condp hsz1 u2 (d + 1),
            ihL thensp hsz2 u2 (d + 1), ihL elsesp hsz3 u2 (d + 1)]
        | cond nid ic condp thenp elsep =>
          have hsz1 : sizeOf condp < n := by simp at ha; omega
          have hsz2 : sizeOf thenp < n := by simp at ha; omega
          have hsz3 : sizeOf elsep < n := by simp at ha; omega
          simp only [List.cons.injEq, true_and]
          rw [List.map_append, List.map_append, ihL condp hsz1 u2 (d + 1),
            ihL thenp hsz2 u2 (d + 1), ihL elsep hsz3 u2 (d + 1)]
        | cawait nid ic exprsp =>
          have hsz : sizeOf exprsp < n := by simp at ha; omega
          simp only [List.cons.injEq, true_and]
          rw [ihL exprsp hsz u2 (d + 1)]
        | fork nid ic stmtsp =>
          have hsz : sizeOf stmtsp < n := by simp at ha; omega
          simp only [List.cons.injEq, true_and]
          rw [ihL stmtsp hsz u2 (d + 1)]
        | ccall nid ic argsp funcp =>
          have hsz : sizeOf argsp < n := by simp at ha; omega
          simp only [List.cons.injEq, true_and]
          rw [ihL argsp hsz u2 (d + 1)]
        | cfunc nid ic stmtsp =>
          have hsz : sizeOf stmtsp < n := by simp at ha; omega
          simp only [List.cons.injEq, true_and]
          rw [ihL stmtsp hsz u2 (d + 1)]
        | active nid ic stmtsp =>
          have hsz : sizeOf stmtsp < n := by simp at ha; omega
          simp only [List.cons.injEq, true_and]
          rw [ihL stmtsp hsz u2 (d + 1)]
    · intro l hlsz u2 d
      cases l with
      | nil => rw [dumpL, preStampedL]; rfl
      | cons a rest =>
        have hsz1 : sizeOf a < n := by simp at hlsz; omega
        have hsz2 : sizeOf rest < n := by simp at hlsz; omega
        rw [dumpL, preStampedL, List.map_append, ihA a hsz1 u2 d, ihL rest hsz2 u2 d]

theorem visitA_rel (a : Ast) (d o1 o2 : Bool) (sid : Nat) (s t : St) (h : EqU2 s t) :
    RelE EqU2 (visitA ⟨d, o1, sid⟩ a s) (visitA ⟨d, o2, sid⟩ a t) :=
  (lemRel (sizeOf a + 1)).1 a (Nat.lt_succ_self _) d o1 o2 sid s t h

theorem visitL_rel (l : List Ast) (d o1 o2 : Bool) (sid : Nat) (s t : St) (h : EqU2 s t) :
    RelE EqU2 (visitL ⟨d, o1, sid⟩ l s) (visitL ⟨d, o2, sid⟩ l t) :=
  (lemRel (sizeOf l + 1)).2.1 l (Nat.lt_succ_self _) d o1 o2 sid s t h

theorem visitA_inv (a : Ast) (cfg : Cfg) (st t : St) (h : visitA cfg a st = .ok t) :
    InvOk cfg.assertNoDups (astIds a) st t :=
  (lemInv (sizeOf a + 1)).1 a (Nat.lt_succ_self _) cfg st t h

theorem visitL_inv (l : List Ast) (cfg : Cfg) (st t : St) (h : visitL cfg l st = .ok t) :
    InvOk cfg.assertNoDups (astIdsL l) st t :=
  (lemInv (sizeOf l + 1)).2.1 l (Nat.lt_succ_self _) cfg st t h

theorem visitA_app (a : Ast) (cfg : Cfg) (s : St) (u : List (Nat × Nat))
    (hu : ∀ k ∈ astIds a, List.lookup k u = none) :
    RelE (AppU1 u) (visitA cfg a s) (visitA cfg a { s with user1 := s.user1 ++ u }) :=
  (lemApp (sizeOf a + 1)).1 a (Nat.lt_succ_self _) cfg s u hu

theorem relE_okFirst (R : St → St → Prop) (x y : Except VErr St) (s : St)
    (h : RelE R x y) (hx : x = .ok s) : ∃ t, y = .ok t ∧ R s t := by
  rcases relE_cases R x y h with ⟨e, h1, h2⟩ | ⟨s2, t, h1, h2, hR⟩
  · rw [hx] at h1; exact absurd h1 (by simp)
  · rw [hx] at h1
    simp only [Except.ok.injEq] at h1
    subst h1
    exact ⟨t, h2, hR⟩

theorem add32_lt (a b : Nat) : add32 a b < W32 := by
  simp only [add32, W32]
  omega

theorem add32_zero_right (a b : Nat) : add32 (add32 a b) 0 = add32 a b := by
  simp only [add32, W32]
  omega

theorem add32_zero_left (a b : Nat) : add32 (add32 0 a) b = add32 a b := by
  simp only [add32, W32]
  omega

theorem add32_self_lt (a : Nat) (h : a < W32) : add32 a 0 = a := by
  simp only [add32, W32] at *
  omega

theorem ite_max (a b : Nat) : (if b ≤ a then a else b) = max a b := by
  by_cases h : b ≤ a
  · rw [if_pos h, Nat.max_eq_left h]
  · rw [if_neg h, Nat.max_eq_right (Nat.le_of_lt (Nat.lt_of_not_le h))]

theorem endVisitBase_noop (cfg : Cfg) (ho : cfg.osp = false) (sv nid : Nat) (st : St)
    (hig : st.ignoreRemaining = false) :
    endVisitBase cfg sv nid st = { st with instrCount := add32 st.instrCount sv } := by
  simp [endVisitBase, markCost, ho, hig]

theorem startVisitBase_noDups (nid ic sid : Nat) (o : Bool) (st : St)
    (hig : st.ignoreRemaining = false) :
    startVisitBase ⟨false, o, sid⟩ nid ic st =
      .ok (st.instrCount, { st with instrCount := w32 ic }) := by
  simp [startVisitBase, hig]

theorem lookup_eq_none (k : Nat) (l : List (Nat × Nat)) (h : ∀ p ∈ l, p.1 ≠ k) :
    List.lookup k l = none := by
  induction l with
  | nil => rfl
  | cons p rest ih =>
    obtain ⟨a, b⟩ := p
    have hk : (k == a) = false := by
      have := h (a, b) (by simp)
      simp only [ne_eq] at this
      simpa using fun hh => this hh.symm
    simp only [List.lookup, hk]
    exact ih fun q hq => h q (by simp [hq])

theorem nodeIf_est (nid ic : Nat) (condp thensp elsesp : List Ast) (pred : BranchPred)
    (sc stt ste : St)
    (hc : visitL ⟨false, false, nid⟩ condp { initSt [] with instrCount := w32 ic } = .ok sc)
    (ht : visitL ⟨false, false, nid⟩ thensp (initSt []) = .ok stt)
    (he : visitL ⟨false, false, nid⟩ elsesp (initSt []) = .ok ste) :
    estimate (.nodeIf nid ic condp thensp elsesp pred) =
      .ok (add32 sc.instrCount
        (max (if pred = .bpUnlikely then 0 else stt.instrCount)
             (if pred = .bpLikely then 0 else ste.instrCount))) := by
  obtain ⟨hc1, hc2, hc3, -⟩ :=
    visitL_inv condp ⟨false, false, nid⟩ { initSt [] with instrCount := w32 ic } sc hc
  obtain ⟨ht1, ht2, ht3, -⟩ := visitL_inv thensp ⟨false, false, nid⟩ (initSt []) stt ht
  obtain ⟨he1, he2, he3, -⟩ := visitL_inv elsesp ⟨false, false, nid⟩ (initSt []) ste he
  simp only [estimate, count, countRes, Ast.nid]
  rw [visitA_nodeIf_eq ⟨false, false, nid⟩ nid ic condp thensp elsesp pred (initSt []) rfl]
  rw [startVisitBase_noDups nid ic nid false (initSt []) rfl]
  simp only []
  rw [hc]
  simp only []
  have hEqT : EqU2 (initSt []) (resetSt sc) :=
    ⟨rfl, rfl, (hc2 rfl).symm, hc1.symm, (hc3 rfl).symm⟩
  obtain ⟨stt2, hT2, hEqT2⟩ := relE_okFirst EqU2 _ _ stt
    (visitL_rel thensp false false false nid (initSt []) (resetSt sc) hEqT) ht
  rw [hT2]
  simp only []
  obtain ⟨g1, g2, g3, g4, g5⟩ := hEqT2
  have hEqE : EqU2 (initSt []) (resetSt stt2) :=
    ⟨rfl, rfl, (g3.symm.trans (ht2 rfl)).symm, (g4.symm.trans ht1).symm,
      (g5.symm.trans (ht3 rfl)).symm⟩
  obtain ⟨ste2, hE2, hEqE2⟩ := relE_okFirst EqU2 _ _ ste
    (visitL_rel elsesp false false false nid (initSt []) (resetSt stt2) hEqE) he
  rw [hE2]
  simp only []
  rw [show stt2.instrCount = stt.instrCount from g1.symm]
  rw [show ste2.instrCount = ste.instrCount from hEqE2.1.symm]
  by_cases hcmp : (if pred = .bpLikely then 0 else ste.instrCount) ≤
      (if pred = .bpUnlikely then 0 else stt.instrCount)
  · rw [if_pos hcmp]
    rw [endVisitBase_noop ⟨false, false, nid⟩ rfl (initSt []).instrCount nid _ rfl]
    simp only [Except.map, Nat.max_eq_left hcmp]
    rw [show (initSt []).instrCount = 0 from rfl, add32_zero_right]
  · rw [if_neg hcmp]
    rw [endVisitBase_noop ⟨false, false, nid⟩ rfl (initSt []).instrCount nid _ rfl]
    simp only [Except.map,
      Nat.max_eq_right (Nat.le_of_lt (Nat.lt_of_not_le hcmp))]
    rw [show (initSt []).instrCount = 0 from rfl, add32_zero_right]

theorem cond_est (nid ic : Nat) (condp thenp elsep : List Ast) (sc stt ste : St)
    (hc : visitL ⟨false, false, nid⟩ condp { initSt [] with instrCount := w32 ic } = .ok sc)
    (ht : visitL ⟨false, false, nid⟩ thenp (initSt []) = .ok stt)
    (he : visitL ⟨false, false, nid⟩ elsep (initSt []) = .ok ste) :
    estimate (.cond nid ic condp thenp elsep) =
      .ok (add32 sc.instrCount (max stt.instrCount ste.instrCount)) := by
  obtain ⟨hc1, hc2, hc3, -⟩ :=
    visitL_inv condp ⟨false, false, nid⟩ { initSt [] with instrCount := w32 ic } sc hc
  obtain ⟨ht1, ht2, ht3, -⟩ := visitL_inv thenp ⟨false, false, nid⟩ (initSt []) stt ht
  obtain ⟨he1, he2, he3, -⟩ := visitL_inv elsep ⟨false, false, nid⟩ (initSt []) ste he
  simp only [estimate, count, countRes, Ast.nid]
  rw [visitA_cond_eq ⟨false, false, nid⟩ nid ic condp thenp elsep (initSt []) rfl]
  rw [startVisitBase_noDups nid ic nid false (initSt []) rfl]
  simp only []
  rw [hc]
  simp only []
  have hEqT : EqU2 (initSt []) (resetSt sc) :=
    ⟨rfl, rfl, (hc2 rfl).symm, hc1.symm, (hc3 rfl).symm⟩
  obtain ⟨stt2, hT2, hEqT2⟩ := relE_okFirst EqU2 _ _ stt
    (visitL_rel thenp false false false nid (initSt []) (resetSt sc) hEqT) ht
  rw [hT2]
  simp only []
  obtain ⟨g1, g2, g3, g4, g5⟩ := hEqT2
  have hEqE : EqU2 (initSt []) (resetSt stt2) :=
    ⟨rfl, rfl, (g3.symm.trans (ht2 rfl)).symm, (g4.symm.trans ht1).symm,
      (g5.symm.trans (ht3 rfl)).symm⟩
  obtain ⟨ste2, hE2, hEqE2⟩ := relE_okFirst EqU2 _ _ ste
    (visitL_rel elsep false false false nid (initSt []) (resetSt stt2) hEqE) he
  rw [hE2]
  simp only []
  rw [show stt2.instrCount = stt.instrCount from g1.symm]
  rw [show ste2.instrCount = ste.instrCount from hEqE2.1.symm]
  by_cases hcmp : ste.instrCount ≤ stt.instrCount
  · rw [if_pos hcmp]
    rw [endVisitBase_noop ⟨false, false, nid⟩ rfl (initSt []).instrCount nid _ rfl]
    simp only [Except.map, Nat.max_eq_left hcmp]
    rw [show (initSt []).instrCount = 0 from rfl, add32_zero_right]
  · rw [if_neg hcmp]
    rw [endVisitBase_noop ⟨false, false, nid⟩ rfl (initSt []).instrCount nid _ rfl]
    simp only [Except.map,
      Nat.max_eq_right (Nat.le_of_lt (Nat.lt_of_not_le hcmp))]
    rw [show (initSt []).instrCount = 0 from rfl, add32_zero_right]

/-- C1: for a conditional — an if-statement (`AstNodeIf`) or a ternary
expression (`AstNodeCond`) — with intrinsic cost `ic`, condition
contributing `cc` on top of `ic` (per the base rule), and branch costs
`ct`, `ce` each accumulated from an independent zero baseline, the
estimate is `ic + cc + max(ct, ce)` (in `uint32` arithmetic); an
`unlikely` hint on the then-branch pins the then-contribution to zero,
so the estimate is `ic + cc + ce` regardless of `ct`, and symmetrically
a `likely` hint pins the else-contribution to zero, giving
`ic + cc + ct`. -/
theorem C1_conditional_max_branch (nid ic cc : Nat) (condp thensp elsesp : List Ast)
    (sc stt ste : St)
    (hc : visitL ⟨false, false, nid⟩ condp { initSt [] with instrCount := w32 ic } = .ok sc)
    (hcc : sc.instrCount = add32 ic cc)
    (ht : visitL ⟨false, false, nid⟩ thensp (initSt []) = .ok stt)
    (he : visitL ⟨false, false, nid⟩ elsesp (initSt []) = .ok ste) :
    (estimate (.nodeIf nid ic condp thensp elsesp .bpNone) =
      .ok (add32 (add32 ic cc) (max stt.instrCount ste.instrCount))) ∧
    (estimate (.nodeIf nid ic condp thensp elsesp .bpUnlikely) =
      .ok (add32 (add32 ic cc) ste.instrCount)) ∧
    (estimate (.nodeIf nid ic condp thensp elsesp .bpLikely) =
      .ok (add32 (add32 ic cc) stt.instrCount)) ∧
    (estimate (.cond nid ic condp thensp elsesp) =
      .ok (add32 (add32 ic cc) (max stt.instrCount ste.instrCount))) := by
  refine ⟨?_, ?_, ?_, ?_⟩
  · rw [nodeIf_est nid ic condp thensp elsesp .bpNone sc stt ste hc ht he, hcc]
    simp
  · rw [nodeIf_est nid ic condp thensp elsesp .bpUnlikely sc stt ste hc ht he, hcc]
    simp
  · rw [nodeIf_est nid ic condp thensp elsesp .bpLikely sc stt ste hc ht he, hcc]
    simp
  · rw [cond_est nid ic condp thensp elsesp sc stt ste hc ht he, hcc]

/-- Witness for C1: an if-statement with intrinsic cost 1, a condition
of cost 2, a then-branch of cost 7 and an else-branch of cost 4; with
an `unlikely` hint the estimate is `1 + 2 + 4`, ignoring the larger
then-branch. -/
theorem C1_witness :
    estimate (.nodeIf 1 1 [.node 2 2 []] [.node 3 7 []] [.node 4 4 []] .bpUnlikely) =
      .ok (add32 (add32 1 2) 4) := by
  have h := C1_conditional_max_branch 1 1 2 [.node 2 2 []] [.node 3 7 []] [.node 4 4 []]
    ⟨3, false, false, false, [], []⟩ ⟨7, false, false, false, [], []⟩
    ⟨4, false, false, false, [], []⟩
    (by simp [visitL, visitA, startVisitBase, endVisitBase, markCost, initSt, add32, w32, W32,
      bind, Except.bind])
    (by decide)
    (by simp [visitL, visitA, startVisitBase, endVisitBase, markCost, initSt, add32, w32, W32,
      bind, Except.bind])
    (by simp [visitL, visitA, startVisitBase, endVisitBase, markCost, initSt, add32, w32, W32,
      bind, Except.bind])
  exact h.2.1

theorem endVisitBase_ignored (cfg : Cfg) (ho : cfg.osp = false) (sv nid : Nat) (st : St)
    (hig : st.ignoreRemaining = true) : endVisitBase cfg sv nid st = st := by
  simp [endVisitBase, markCost, ho, hig]

/-- C2: an indexed/bit select (`AstNodeSel`) and a slice select
(`AstSel`) charge the node's own intrinsic cost plus the cost of the
index (respectively offset/width) subexpression chain only; the
visited base operand `fromp` is never entered, so the result is
entirely independent of the base expression. -/
theorem C2_select_excludes_base (nid ic bc : Nat) (f f2 : Ast) (ixp : List Ast) (t : St)
    (hb : visitL ⟨false, false, nid⟩ ixp { initSt [] with instrCount := w32 ic } = .ok t)
    (hti : t.ignoreRemaining = false)
    (htc : t.instrCount = add32 ic bc) :
    (∀ (cfg : Cfg) (st : St),
      visitA cfg (.nodeSel nid ic f ixp) st = visitA cfg (.nodeSel nid ic f2 ixp) st) ∧
    (estimate (.nodeSel nid ic f ixp) = .ok (add32 ic bc)) ∧
    (∀ (cfg : Cfg) (st : St),
      visitA cfg (.sel nid ic f ixp) st = visitA cfg (.sel nid ic f2 ixp) st) ∧
    (estimate (.sel nid ic f ixp) = .ok (add32 ic bc)) := by
  refine ⟨?_, ?_, ?_, ?_⟩
  · intro cfg st
    by_cases hig : st.ignoreRemaining = true
    · rw [visitA_skip cfg (.nodeSel nid ic f ixp) st hig rfl,
        visitA_skip cfg (.nodeSel nid ic f2 ixp) st hig rfl]
    · rw [Bool.not_eq_true] at hig
      rw [visitA_nodeSel_eq cfg nid ic f ixp st hig,
        visitA_nodeSel_eq cfg nid ic f2 ixp st hig]
  · simp only [estimate, count, countRes, Ast.nid]
    rw [visitA_nodeSel_eq ⟨false, false, nid⟩ nid ic f ixp (initSt []) rfl]
    rw [startVisitBase_noDups nid ic nid false (initSt []) rfl]
    simp only []
    rw [hb]
    simp only []
    rw [endVisitBase_noop ⟨false, false, nid⟩ rfl (initSt []).instrCount nid t hti]
    simp only [Except.map]
    rw [htc, show (initSt []).instrCount = 0 from rfl, add32_zero_right]
  · intro cfg st
    by_cases hig : st.ignoreRemaining = true
    · rw [visitA_skip cfg (.sel nid ic f ixp) st hig rfl,
        visitA_skip cfg (.sel nid ic f2 ixp) st hig rfl]
    · rw [Bool.not_eq_true] at hig
      rw [visitA_sel_eq cfg nid ic f ixp st hig, visitA_sel_eq cfg nid ic f2 ixp st hig]
  · simp only [estimate, count, countRes, Ast.nid]
    rw [visitA_sel_eq ⟨false, false, nid⟩ nid ic f ixp (initSt []) rfl]
    rw [startVisitBase_noDups nid ic nid false (initSt []) rfl]
    simp only []
    rw [hb]
    simp only []
    rw [endVisitBase_noop ⟨false, false, nid⟩ rfl (initSt []).instrCount nid t hti]
    simp only [Except.map]
    rw [htc, show (initSt []).instrCount = 0 from rfl, add32_zero_right]

/-- Witness for C2: selecting one element out of a base vector whose
expression costs a million instructions still estimates to
`2 + 3` — the select's intrinsic cost plus the index cost only. -/
theorem C2_witness :
    estimate (.nodeSel 1 2 (.node 9 1000000 []) [.node 3 3 []]) = .ok (add32 2 3) := by
  have h := C2_select_excludes_base 1 2 3 (.node 9 1000000 []) (.node 9 5 [])
    [.node 3 3 []] ⟨5, false, false, false, [], []⟩
    (by simp [visitL, visitA, startVisitBase, endVisitBase, markCost, initSt, add32, w32, W32,
      bind, Except.bind])
    (by decide) (by decide)
  exact h.2.1

/-- C3: a suspension point (`AstCAwait`) contributes only the cost of
its own children — its own intrinsic cost is never added — and all
statements that follow it in the same block are excluded from the
running total: a zero-intrinsic block holding the suspension followed
by any skippable statements estimates to the suspension's children
cost alone. -/
theorem C3_await_cuts_block (b aid aic aic2 : Nat) (ch rest : List Ast) (t : St)
    (hch : visitL ⟨false, false, b⟩ ch (initSt []) = .ok t)
    (hrest : ∀ s ∈ rest, skipsIgnored s = true) :
    (estimate (.node b 0 (.cawait aid aic ch :: rest)) = .ok t.instrCount) ∧
    (∀ (cfg : Cfg) (st : St),
      visitA cfg (.cawait aid aic ch) st = visitA cfg (.cawait aid aic2 ch) st) := by
  constructor
  · simp only [estimate, count, countRes, Ast.nid]
    rw [visitA_node_eq ⟨false, false, b⟩ b 0 (.cawait aid aic ch :: rest) (initSt []) rfl]
    rw [startVisitBase_noDups b 0 b false (initSt []) rfl]
    simp only []
    rw [show ({ initSt [] with instrCount := w32 0 } : St) = initSt [] from rfl]
    rw [visitL_cons_eq]
    rw [visitA_cawait_eq ⟨false, false, b⟩ aid aic ch (initSt []) rfl]
    rw [hch]
    simp only []
    rw [visitL_skip ⟨false, false, b⟩ rest { t with ignoreRemaining := true } rfl hrest]
    simp only []
    rw [endVisitBase_ignored ⟨false, false, b⟩ rfl (initSt []).instrCount b
      { t with ignoreRemaining := true } rfl]
    simp [Except.map]
  · intro cfg st
    by_cases hig : st.ignoreRemaining = true
    · rw [visitA_skip cfg (.cawait aid aic ch) st hig rfl,
        visitA_skip cfg (.cawait aid aic2 ch) st hig rfl]
    · rw [Bool.not_eq_true] at hig
      rw [visitA_cawait_eq cfg aid aic ch st hig, visitA_cawait_eq cfg aid aic2 ch st hig]

/-- Witness for C3: a block holding an await over a cost-5 expression,
followed by two cost-7 statements, estimates to 5 — the suspension's
own-children cost only; the trailing statements and the await's own
intrinsic cost 9 are excluded. -/
theorem C3_witness :
    estimate (.node 1 0 [.cawait 2 9 [.node 3 5 []], .node 4 7 [], .node 5 7 []]) =
      .ok 5 := by
  have h := C3_await_cuts_block 1 2 9 0 [.node 3 5 []] [.node 4 7 [], .node 5 7 []]
    ⟨5, false, false, false, [], []⟩
    (by simp [visitL, visitA, startVisitBase, endVisitBase, markCost, initSt, add32, w32, W32,
      bind, Except.bind])
    (by intro s hs; simp only [List.mem_cons, List.not_mem_nil, or_false] at hs; rcases hs with h | h <;> subst h <;> rfl)
  exact h.1

theorem w32_lt (n : Nat) : w32 n < W32 := by
  simp only [w32, W32]
  omega

theorem foldl_add32_lt (cs : List Nat) : ∀ t : Nat, t < W32 →
    List.foldl add32 t cs < W32 := by
  induction cs with
  | nil => intro t ht; simpa using ht
  | cons c rest ih =>
    intro t ht
    rw [List.foldl_cons]
    exact ih _ (add32_lt t c)

theorem forkStmts_value (sid : Nat) (stmts : List Ast) (cs : List Nat)
    (hF : List.Forall₂ (fun s c => ∃ u, visitA ⟨false, false, sid⟩ s (initSt []) = .ok u ∧
      u.instrCount = c) stmts cs) :
    ∀ (tot : Nat) (st : St), st.tracingCall = false → st.inCFunc = false → st.user1 = [] →
      ∃ fin, forkStmts ⟨false, false, sid⟩ stmts tot st = .ok (List.foldl add32 tot cs, fin) ∧
        fin.tracingCall = false ∧ fin.inCFunc = false ∧ fin.user1 = [] := by
  induction hF with
  | nil =>
    intro tot st h1 h2 h3
    exact ⟨st, by rw [forkStmts_nil_eq, List.foldl_nil], h1, h2, h3⟩
  | @cons s c stmts2 cs2 hsc htl ih =>
    intro tot st h1 h2 h3
    obtain ⟨u, hu, huc⟩ := hsc
    have hEq : EqU2 (initSt []) (resetSt st) := ⟨rfl, rfl, h1.symm, h2.symm, h3.symm⟩
    obtain ⟨u2, hu2, hEq2⟩ := relE_okFirst EqU2 _ _ u
      (visitA_rel s false false false sid (initSt []) (resetSt st) hEq) hu
    obtain ⟨i1, i2, i3, -⟩ := visitA_inv s ⟨false, false, sid⟩ (initSt []) u hu
    obtain ⟨g1, g2, g3, g4, g5⟩ := hEq2
    obtain ⟨fin, hfin, f1, f2, f3⟩ := ih (add32 tot u2.instrCount) u2
      (g3.symm.trans (i2 rfl)) (g4.symm.trans i1) (g5.symm.trans (i3 rfl))
    refine ⟨fin, ?_, f1, f2, f3⟩
    rw [forkStmts_cons_eq, hu2]
    simp only []
    rw [hfin, List.foldl_cons]
    rw [show u2.instrCount = c from g1.symm.trans huc]

theorem fork_est (f fic : Nat) (stmts : List Ast) (cs : List Nat)
    (hF : List.Forall₂ (fun s c => ∃ u, visitA ⟨false, false, f⟩ s (initSt []) = .ok u ∧
      u.instrCount = c) stmts cs) :
    estimate (.fork f fic stmts) = .ok (List.foldl add32 (w32 fic) cs) := by
  simp only [estimate, count, countRes, Ast.nid]
  rw [visitA_fork_eq ⟨false, false, f⟩ f fic stmts (initSt []) rfl]
  rw [startVisitBase_noDups f fic f false (initSt []) rfl]
  simp only []
  obtain ⟨fin, hfk, -, -, -⟩ := forkStmts_value f stmts cs hF
    (({ initSt [] with instrCount := w32 fic } : St).instrCount)
    { initSt [] with instrCount := w32 fic } rfl rfl rfl
  rw [hfk]
  simp only []
  rw [endVisitBase_noop ⟨false, false, f⟩ rfl (initSt []).instrCount f _ rfl]
  simp only [Except.map]
  rw [show (initSt []).instrCount = 0 from rfl]
  rw [add32_self_lt _ (foldl_add32_lt cs (w32 fic) (w32_lt fic))]

/-- C4: a fork (`AstFork`) costs each parallel branch from a fresh zero
baseline, accumulating up to and including that branch's first
suspension point, resets the branch-local ignore state after each
branch, and returns the sum of all branch totals on top of its own
intrinsic cost; after the fork, normal accumulation resumes, so a fork
of a branch A that ends in a suspension (own cost `a`) and a branch B
without one (cost `b`), followed by a trailing statement T of cost
`t`, estimates to `a + b + t`. -/
theorem C4_fork_sums_branches :
    (∀ (f fic : Nat) (stmts : List Ast) (cs : List Nat),
      List.Forall₂ (fun s c => ∃ u, visitA ⟨false, false, f⟩ s (initSt []) = .ok u ∧
        u.instrCount = c) stmts cs →
      estimate (.fork f fic stmts) = .ok (List.foldl add32 (w32 fic) cs)) ∧
    (∀ (r f : Nat) (A B T : Ast) (ta tb tt : St) (tc : Nat),
      visitA ⟨false, false, r⟩ A (initSt []) = .ok ta →
      ta.ignoreRemaining = true →
      visitA ⟨false, false, r⟩ B (initSt []) = .ok tb →
      visitA ⟨false, false, r⟩ T
        { initSt [] with instrCount := add32 ta.instrCount tb.instrCount } = .ok tt →
      tt.ignoreRemaining = false →
      tt.instrCount = add32 (add32 ta.instrCount tb.instrCount) tc →
      estimate (.node r 0 [.fork f 0 [A, B], T]) =
        .ok (add32 (add32 ta.instrCount tb.instrCount) tc)) := by
  constructor
  · intro f fic stmts cs hF
    exact fork_est f fic stmts cs hF
  · intro r f A B T ta tb tt tc hA hAi hB hT hTi hTc
    obtain ⟨a1, a2, a3, -⟩ := visitA_inv A ⟨false, false, r⟩ (initSt []) ta hA
    obtain ⟨b1, b2, b3, -⟩ := visitA_inv B ⟨false, false, r⟩ (initSt []) tb hB
    simp only [estimate, count, countRes, Ast.nid]
    rw [visitA_node_eq ⟨false, false, r⟩ r 0 [.fork f 0 [A, B], T] (initSt []) rfl]
    rw [startVisitBase_noDups r 0 r false (initSt []) rfl]
    simp only []
    rw [show ({ initSt [] with instrCount := w32 0 } : St) = initSt [] from rfl]
    rw [visitL_cons_eq]
    rw [visitA_fork_eq ⟨false, false, r⟩ f 0 [A, B] (initSt []) rfl]
    rw [startVisitBase_noDups f 0 r false (initSt []) rfl]
    simp only []
    rw [show ({ initSt [] with instrCount := w32 0 } : St) = initSt [] from rfl]
    rw [forkStmts_cons_eq]
    rw [show resetSt (initSt []) = initSt [] from rfl]
    rw [hA]
    simp only []
    rw [forkStmts_cons_eq]
    have hEqB : EqU2 (initSt []) (resetSt ta) :=
      ⟨rfl, rfl, (a2 rfl).symm, a1.symm, (a3 rfl).symm⟩
    obtain ⟨tb2, hB2, hEqB2⟩ := relE_okFirst EqU2 _ _ tb
      (visitA_rel B false false false r (initSt []) (resetSt ta) hEqB) hB
    rw [hB2]
    simp only []
    rw [forkStmts_nil_eq]
    simp only []
    rw [endVisitBase_noop ⟨false, false, r⟩ rfl (initSt []).instrCount f _ rfl]
    obtain ⟨g1, g2, g3, g4, g5⟩ := hEqB2
    have hab : add32 (add32 (w32 0) ta.instrCount) tb2.instrCount =
        add32 ta.instrCount tb.instrCount := by
      rw [show tb2.instrCount = tb.instrCount from g1.symm,
        show w32 0 = 0 from rfl, add32_zero_left]
    rw [hab]
    rw [show (initSt []).instrCount = 0 from rfl]
    rw [add32_self_lt (add32 ta.instrCount tb.instrCount)
      (add32_lt ta.instrCount tb.instrCount)]
    simp only []
    rw [visitL_cons_eq]
    have hEqT : EqU2 { initSt [] with instrCount := add32 ta.instrCount tb.instrCount }
        { tb2 with instrCount := (add32 ta.instrCount tb.instrCount),
                   ignoreRemaining := false } :=
      ⟨rfl, rfl, (g3.symm.trans (b2 rfl)).symm, (g4.symm.trans b1).symm,
        (g5.symm.trans (b3 rfl)).symm⟩
    have hrelT := visitA_rel T false false false r
      { initSt [] with instrCount := add32 ta.instrCount tb.instrCount }
      { tb2 with instrCount := (add32 ta.instrCount tb.instrCount),
                 ignoreRemaining := false } hEqT
    obtain ⟨tt2, hT2, hEqT2⟩ := relE_okFirst EqU2 _ _ tt hrelT hT
    rw [hT2]
    simp only []
    rw [visitL_nil_eq]
    simp only []
    rw [endVisitBase_noop ⟨false, false, r⟩ rfl 0 r tt2
      (hEqT2.2.1.symm.trans hTi)]
    simp only [Except.map]
    rw [show tt2.instrCount = tt.instrCount from hEqT2.1.symm, hTc, add32_zero_right]

/-- Witness for C4: a fork of a branch suspending after cost 3 and a
branch of cost 4, followed by a trailing statement of cost 6,
estimates to `3 + 4 + 6`. -/
theorem C4_witness :
    estimate (.node 1 0 [.fork 2 0 [.node 10 0 [.cawait 11 0 [.node 12 3 []]],
      .node 20 4 []], .node 30 6 []]) = .ok (add32 (add32 3 4) 6) := by
  have h := (C4_fork_sums_branches).2 1 2 (.node 10 0 [.cawait 11 0 [.node 12 3 []]])
    (.node 20 4 []) (.node 30 6 []) ⟨3, true, false, false, [], []⟩
    ⟨4, false, false, false, [], []⟩ ⟨13, false, false, false, [], []⟩ 6
    (by simp [visitA, visitL, startVisitBase, endVisitBase, markCost, initSt, add32, w32, W32,
      bind, Except.bind])
    (by decide)
    (by simp [visitA, visitL, startVisitBase, endVisitBase, markCost, initSt, add32, w32, W32,
      bind, Except.bind])
    (by simp [visitA, visitL, startVisitBase, endVisitBase, markCost, initSt, add32, w32, W32,
      bind, Except.bind])
    (by decide) (by decide)
  exact h

/-- C5: a concatenation (`AstConcat`) estimates to the sum of its two
operand costs; the concatenation node's own intrinsic cost is never
added (the result is the same for any intrinsic cost `ic`, `ic2`). -/
theorem C5_concat_sum (nid ic ic2 c2 : Nat) (lhsp rhsp : Ast) (tl tr : St)
    (hl : visitA ⟨false, false, nid⟩ lhsp (initSt []) = .ok tl)
    (hli : tl.ignoreRemaining = false)
    (hr : visitA ⟨false, false, nid⟩ rhsp
      { initSt [] with instrCount := tl.instrCount } = .ok tr)
    (hrc : tr.instrCount = add32 tl.instrCount c2) :
    (estimate (.concat nid ic lhsp rhsp) = .ok (add32 tl.instrCount c2)) ∧
    (∀ (cfg : Cfg) (st : St),
      visitA cfg (.concat nid ic lhsp rhsp) st = visitA cfg (.concat nid ic2 lhsp rhsp) st) := by
  constructor
  · obtain ⟨i1, i2, i3, -⟩ := visitA_inv lhsp ⟨false, false, nid⟩ (initSt []) tl hl
    simp only [estimate, count, countRes, Ast.nid]
    rw [visitA_concat_eq ⟨false, false, nid⟩ nid ic lhsp rhsp (initSt []) rfl]
    rw [hl]
    simp only []
    have hEq : EqU2 { initSt [] with instrCount := tl.instrCount } tl :=
      ⟨rfl, hli.symm, (i2 rfl).symm, i1.symm, (i3 rfl).symm⟩
    obtain ⟨tr2, hr2, hEq2⟩ := relE_okFirst EqU2 _ _ tr
      (visitA_rel rhsp false false false nid _ tl hEq) hr
    rw [hr2]
    simp only []
    rw [show markCost ⟨false, false, nid⟩ nid tr2 = tr2 from by simp [markCost]]
    simp only [Except.map]
    rw [show tr2.instrCount = tr.instrCount from hEq2.1.symm, hrc]
  · intro cfg st
    by_cases hig : st.ignoreRemaining = true
    · rw [visitA_skip cfg (.concat nid ic lhsp rhsp) st hig rfl,
        visitA_skip cfg (.concat nid ic2 lhsp rhsp) st hig rfl]
    · rw [Bool.not_eq_true] at hig
      rw [visitA_concat_eq cfg nid ic lhsp rhsp st hig,
        visitA_concat_eq cfg nid ic2 lhsp rhsp st hig]

/-- Witness for C5: concatenating operands of cost 3 and 4, with the
concatenation node's own intrinsic cost set to 100, estimates to
`3 + 4` — the intrinsic cost is excluded. -/
theorem C5_witness :
    estimate (.concat 1 100 (.node 2 3 []) (.node 3 4 [])) = .ok (add32 3 4) := by
  have h := C5_concat_sum 1 100 0 4 (.node 2 3 []) (.node 3 4 [])
    ⟨3, false, false, false, [], []⟩ ⟨7, false, false, false, [], []⟩
    (by simp [visitA, visitL, startVisitBase, endVisitBase, markCost, initSt, add32, w32, W32,
      bind, Except.bind])
    (by decide)
    (by simp [visitA, visitL, startVisitBase, endVisitBase, markCost, initSt, add32, w32, W32,
      bind, Except.bind])
    (by decide)
  exact h.1

/-- C6: with duplicate checking enabled, an estimate over a subtree
whose node identities are disjoint from those already claimed by an
earlier query succeeds with the same result (up to the accumulated
claim markers); while a query whose root — of any kind that goes
through `startVisitBase` — already carries a claim marker fails with
the duplicate-claim invariant violation instead of returning a cost. -/
theorem C6_duplicate_checking :
    (∀ (A B : Ast) (o : Bool) (t1 t2 : St),
      List.Disjoint (astIds A) (astIds B) →
      countRes A true o [] = .ok t1 →
      countRes B true o [] = .ok t2 →
      countRes B true o t1.user1 = .ok { t2 with user1 := t2.user1 ++ t1.user1 }) ∧
    (∀ (root : Ast) (o : Bool) (u : List (Nat × Nat)) (p : Nat),
      claimsAtVisit root = true →
      List.lookup root.nid u = some p →
      countRes root true o u = .error (.dupClaim root.nid p)) := by
  constructor
  · intro A B o t1 t2 hdis h1 h2
    obtain ⟨-, -, -, w, hw, hmem⟩ := visitA_inv A ⟨true, o, A.nid⟩ (initSt []) t1 h1
    have hu : ∀ k ∈ astIds B, List.lookup k t1.user1 = none := by
      intro k hk
      rw [hw]
      apply lookup_eq_none
      intro q hq
      rcases List.mem_append.1 hq with h | h
      · intro he
        exact hdis (he ▸ hmem q h) hk
      · simp [initSt] at h
    have hrel := visitA_app B ⟨true, o, B.nid⟩ (initSt []) t1.user1 hu
    obtain ⟨t3, h3, happ⟩ := relE_okFirst (AppU1 t1.user1) _ _ t2 hrel h2
    show visitA ⟨true, o, B.nid⟩ B (initSt t1.user1) = _
    rw [show (initSt t1.user1) =
      ({ initSt [] with user1 := (initSt []).user1 ++ t1.user1 } : St) from rfl]
    rw [h3, happ]
  · intro root o u p hcl hlk
    cases root with
    | node nid ic ch =>
      simp only [Ast.nid] at hlk ⊢
      show visitA ⟨true, o, nid⟩ (.node nid ic ch) (initSt u) = _
      rw [visitA_node_eq ⟨true, o, nid⟩ nid ic ch (initSt u) rfl]
      rw [show startVisitBase ⟨true, o, nid⟩ nid ic (initSt u) =
        .error (.dupClaim nid p) from by simp [startVisitBase, initSt, hlk]]
    | nodeSel nid ic f bitp =>
      simp only [Ast.nid] at hlk ⊢
      show visitA ⟨true, o, nid⟩ (.nodeSel nid ic f bitp) (initSt u) = _
      rw [visitA_nodeSel_eq ⟨true, o, nid⟩ nid ic f bitp (initSt u) rfl]
      rw [show startVisitBase ⟨true, o, nid⟩ nid ic (initSt u) =
        .error (.dupClaim nid p) from by simp [startVisitBase, initSt, hlk]]
    | sel nid ic f lsbp =>
      simp only [Ast.nid] at hlk ⊢
      show visitA ⟨true, o, nid⟩ (.sel nid ic f lsbp) (initSt u) = _
      rw [visitA_sel_eq ⟨true, o, nid⟩ nid ic f lsbp (initSt u) rfl]
      rw [show startVisitBase ⟨true, o, nid⟩ nid ic (initSt u) =
        .error (.dupClaim nid p) from by simp [startVisitBase, initSt, hlk]]
    | nodeIf nid ic c1 c2 c3 pred =>
      simp only [Ast.nid] at hlk ⊢
      show visitA ⟨true, o, nid⟩ (.nodeIf nid ic c1 c2 c3 pred) (initSt u) = _
      rw [visitA_nodeIf_eq ⟨true, o, nid⟩ nid ic c1 c2 c3 pred (initSt u) rfl]
      rw [show startVisitBase ⟨true, o, nid⟩ nid ic (initSt u) =
        .error (.dupClaim nid p) from by simp [startVisitBase, initSt, hlk]]
    | cond nid ic c1 c2 c3 =>
      simp only [Ast.nid] at hlk ⊢
      show visitA ⟨true, o, nid⟩ (.cond nid ic c1 c2 c3) (initSt u) = _
      rw [visitA_cond_eq ⟨true, o, nid⟩ nid ic c1 c2 c3 (initSt u) rfl]
      rw [show startVisitBase ⟨true, o, nid⟩ nid ic (initSt u) =
        .error (.dupClaim nid p) from by simp [startVisitBase, initSt, hlk]]
    | cawait nid ic ex => simp [claimsAtVisit] at hcl
    | fork nid ic stmtsp =>
      simp only [Ast.nid] at hlk ⊢
      show visitA ⟨true, o, nid⟩ (.fork nid ic stmtsp) (initSt u) = _
      rw [visitA_fork_eq ⟨true, o, nid⟩ nid ic stmtsp (initSt u) rfl]
      rw [show startVisitBase ⟨true, o, nid⟩ nid ic (initSt u) =
        .error (.dupClaim nid p) from by simp [startVisitBase, initSt, hlk]]
    | ccall nid ic argsp funcp =>
      simp only [Ast.nid] at hlk ⊢
      show visitA ⟨true, o, nid⟩ (.ccall nid ic argsp funcp) (initSt u) = _
      rw [visitA_ccall_eq ⟨true, o, nid⟩ nid ic argsp funcp (initSt u) rfl]
      rw [show startVisitBase ⟨true, o, nid⟩ nid ic (initSt u) =
        .error (.dupClaim nid p) from by simp [startVisitBase, initSt, hlk]]
    | cfunc nid ic stmtsp => simp [claimsAtVisit] at hcl
    | concat nid ic l r => simp [claimsAtVisit] at hcl
    | active nid ic stmtsp => simp [claimsAtVisit] at hcl

/-- Witness for C6: after estimating the subtree with nodes 1, 2 under
duplicate checking, estimating the disjoint node 3 with the claim
markers still in place succeeds; estimating a node that already
carries a claim marker fails with the duplicate-claim violation. -/
theorem C6_witness :
    countRes (.node 3 1 []) true false
        [(2, 1), (1, 1)] = .ok ⟨1, false, false, false, [(3, 3), (2, 1), (1, 1)], []⟩ ∧
      countRes (.node 5 1 []) true false [(5, 9)] = .error (.dupClaim 5 9) := by
  constructor
  · have h := (C6_duplicate_checking).1 (.node 1 0 [.node 2 1 []]) (.node 3 1 []) false
      ⟨1, false, false, false, [(2, 1), (1, 1)], []⟩
      ⟨1, false, false, false, [(3, 3)], []⟩
      (by intro a ha hb; simp [astIds, astIdsL] at ha hb; omega)
      (by simp [countRes, visitA, visitL, startVisitBase, endVisitBase, markCost, initSt,
        Ast.nid, List.lookup, add32, w32, W32, bind, Except.bind])
      (by simp [countRes, visitA, visitL, startVisitBase, endVisitBase, markCost, initSt,
        Ast.nid, List.lookup, add32, w32, W32, bind, Except.bind])
    simpa using h
  · exact (C6_duplicate_checking).2 (.node 5 1 []) false [(5, 9)] 9 rfl (by decide)

/-- C7: the estimator never recurses into a scheduling-trigger node
(`AstActive`): one met anywhere other than as the query root is a
fatal invariant violation, the visit result never depends on the
trigger's children, and a query rooted at a trigger node returns
without descending, with cost 0. -/
theorem C7_active_trigger :
    (∀ (cfg : Cfg) (nid ic : Nat) (stmtsp : List Ast) (st : St), nid ≠ cfg.startId →
      visitA cfg (.active nid ic stmtsp) st = .error (.multipleActives nid)) ∧
    (∀ (cfg : Cfg) (nid ic : Nat) (stmtsp : List Ast) (st : St),
      visitA cfg (.active nid ic stmtsp) st = visitA cfg (.active nid ic []) st) ∧
    (∀ (d o : Bool) (nid ic : Nat) (stmtsp : List Ast) (u : List (Nat × Nat)),
      count (.active nid ic stmtsp) d o u = .ok 0) := by
  refine ⟨?_, ?_, ?_⟩
  · intro cfg nid ic stmtsp st h
    rw [visitA_active_eq, if_neg h]
  · intro cfg nid ic stmtsp st
    rw [visitA_active_eq, visitA_active_eq]
  · intro d o nid ic stmtsp u
    simp only [count, countRes, Ast.nid]
    rw [visitA_active_eq, if_pos rfl]
    simp [Except.map, markCost_instrCount, initSt]

/-- Witness for C7: an `AstActive` with identity 5 reached while the
query root is node 0 aborts with the multiple-actives invariant
violation. -/
theorem C7_witness :
    visitA ⟨false, false, 0⟩ (.active 5 1 []) (initSt []) =
      .error (.multipleActives 5) :=
  (C7_active_trigger).1 ⟨false, false, 0⟩ 5 1 [] (initSt []) (by decide)

/-- C8: the estimator's recursive walk always completes: the
fuel-bounded interpreter, given fuel one more than the representation
size of the input tree, returns (rather than running out of fuel) and
agrees with the total interpreter, for every input tree, configuration
and state — callee bodies traced through call sites included. -/
theorem C8_terminates (cfg : Cfg) (a : Ast) (st : St) :
    visitAF (sizeOf a + 1) cfg a st = some (visitA cfg a st) :=
  (fuelAdequate (sizeOf a + 1)).1 a (Nat.lt_succ_self _) cfg st

/-- C9: the diagnostic printer emits, in pre-order, exactly one line
per stamped node — indentation of one colon per depth level, the
token `cost`, the stamp minus one left-justified in a six-column
field, then a short node description — recursing into children only
when the node itself is stamped, so an unstamped node prunes its
entire subtree: the printer agrees with the specification-side
pre-order description `specDump`. -/
theorem C9_dump_preorder (u2 : List (Nat × Nat)) (a : Ast) :
    dumpA u2 0 a = specDump u2 a := by
  rw [specDump]
  exact (dumpEq (sizeOf a + 1)).1 a (Nat.lt_succ_self _) u2 0

/-- C10: for every tree, duplicate-checking flag and pre-existing
claim markers, the scalar cost returned by `count` is the same whether
the diagnostic sink is supplied or not — the sink changes only the
write-only `user2` display stamps. -/
theorem C10_sink_irrelevant (a : Ast) (d : Bool) (u : List (Nat × Nat)) :
    count a d true u = count a d false u := by
  simp only [count, countRes]
  rcases relE_cases EqU2 _ _
      (visitA_rel a d true false a.nid (initSt u) (initSt u) (eqU2_refl _)) with
    ⟨e, h1, h2⟩ | ⟨s, t, h1, h2, hEq⟩
  · rw [h1, h2]
  · rw [h1, h2]
    simp [Except.map, hEq.1]
